import Mathlib

/-!
Shallow embedding of the mutable-batch `Writer` transaction engine
(`src/mutable_batch/src/writer.rs`) together with the collaborator
primitives it consumes (validity bitmaps, the string-interning
dictionary, per-column statistics, and the column storage variants).
The collaborator primitives are not part of the supplied sources, so
they are modelled from the specification; every function of
`writer.rs` itself is translated directly from the Rust source.
-/

namespace MB

/-! ## Schema types (from the `schema` crate, modelled from the spec) -/

/-- Modelled from the spec: the field variants of a column
(float64 / int64 / uint64 / boolean / string). -/
inductive InfluxFieldType where
  | float
  | integer
  | uinteger
  | boolean
  | string
deriving DecidableEq, Repr

/-- Modelled from the spec: semantic column type (tag, typed field, timestamp). -/
inductive InfluxColumnType where
  | tag
  | field (t : InfluxFieldType)
  | timestamp
deriving DecidableEq, Repr

/-! ## Errors and outcomes (`Error` in writer.rs) -/

/-- Recoverable writer errors, from the `Error` enum of writer.rs. -/
inductive Error where
  | typeMismatch (existing inserted : InfluxColumnType)
  | insufficientValues
  | keyNotFound (key : Nat)
deriving DecidableEq, Repr

/-- Result of one writer call: success, a recoverable `Error`, or a fatal
contract violation (a Rust `assert!` / `unreachable!`), which we keep as a
separate outcome so that the model stays total. -/
inductive Outcome where
  | ok
  | err (e : Error)
  | panicked
deriving DecidableEq, Repr

/-! ## Statistics (from the `data_types` crate, modelled from the spec) -/

/-- Boolean total order used for the type-appropriate min/max folding of
statistics. The claims under verification never inspect min/max values,
only counts, so any total comparison is adequate here. -/
class ValOrd (α : Type) where
  le : α → α → Bool

instance : ValOrd Float := ⟨fun a b => decide (a ≤ b)⟩
instance : ValOrd Int := ⟨fun a b => decide (a ≤ b)⟩
instance : ValOrd Nat := ⟨fun a b => decide (a ≤ b)⟩
instance : ValOrd Bool := ⟨fun a b => !a || b⟩
instance : ValOrd String := ⟨fun a b => a == b || decide (a < b)⟩

/-- Modelled from the spec: per-write-call statistics accumulator
(`StatValues<T>` of `data_types`): min, max, total count, null count and a
distinct count for string-like columns. -/
structure StatValues (α : Type) where
  min : Option α := none
  max : Option α := none
  total_count : Nat := 0
  null_count : Nat := 0
  distinct_count : Option Nat := none
deriving Repr

/-- Modelled from the spec: `StatValues::new_empty`. -/
def StatValues.new_empty {α : Type} : StatValues α := {}

/-- Modelled from the spec: fold one non-null value into the accumulator. -/
def StatValues.update {α : Type} [ValOrd α] (s : StatValues α) (v : α) : StatValues α :=
  { s with
    min := some (match s.min with
      | none => v
      | some m => if ValOrd.le v m then v else m)
    max := some (match s.max with
      | none => v
      | some m => if ValOrd.le m v then v else m)
    total_count := s.total_count + 1 }

/-- Modelled from the spec: account for `n` null rows. -/
def StatValues.update_for_nulls {α : Type} (s : StatValues α) (n : Nat) : StatValues α :=
  { s with total_count := s.total_count + n, null_count := s.null_count + n }

/-- Combine two optional minima. -/
def combMin {α : Type} [ValOrd α] : Option α → Option α → Option α
  | none, o => o
  | o, none => o
  | some a, some b => some (if ValOrd.le a b then a else b)

/-- Combine two optional maxima. -/
def combMax {α : Type} [ValOrd α] : Option α → Option α → Option α
  | none, o => o
  | o, none => o
  | some a, some b => some (if ValOrd.le a b then b else a)

/-- Modelled from the spec: merge a pending accumulator into a cumulative one
(`StatValues::update_from`); counts add, min/max combine. The distinct count of
string-like columns is recomputed from dictionary size at commit time by the
writer itself, so the merge leaves it unchanged. -/
def StatValues.update_from {α : Type} [ValOrd α] (s o : StatValues α) : StatValues α :=
  { s with
    min := combMin s.min o.min
    max := combMax s.max o.max
    total_count := s.total_count + o.total_count
    null_count := s.null_count + o.null_count }

/-- Typed statistics record (`Statistics` of `data_types`). -/
inductive Statistics where
  | f64 (s : StatValues Float)
  | i64 (s : StatValues Int)
  | u64 (s : StatValues Nat)
  | string (s : StatValues String)
  | bool (s : StatValues Bool)
deriving Repr

/-- Modelled from the Rust `NonZeroU64::new`: `none` encodes zero. -/
def nonZeroNew (n : Nat) : Option Nat :=
  if n = 0 then none else some n

/-! ## Bitmaps and masks (from `arrow_util::bitset`, modelled from the spec) -/

/-- Bit `i` of a little-endian byte-array mask: bit `i` set means row `i` of the
transaction has a value (LSB-first within each byte, the Arrow convention). -/
def byteBit (mask : List Nat) (i : Nat) : Bool :=
  (mask.getD (i / 8) 0).testBit (i % 8)

/-- Modelled from the spec: `iter_set_positions` of `arrow_util::bitset`: the
increasing sequence of set bit positions of a byte-array mask. -/
def iter_set_positions (mask : List Nat) : List Nat :=
  (List.range (8 * mask.length)).filter (fun i => byteBit mask i)

/-- Modelled from the spec: the first `n` bits of a byte-array mask, used by
`BitSet::append_bits(n, mask)`. -/
def maskBits (mask : List Nat) (n : Nat) : List Bool :=
  (List.range n).map (fun i => byteBit mask i)

/-! ## Dictionary (from `arrow_util::dictionary`, modelled from the spec) -/

/-- The invalid dictionary id (`INVALID_DID`), used for null tag rows. -/
def INVALID_DID : Int := -1

/-- Modelled from the spec: `Dictionary::lookup_value_or_insert`: return the
code of `v`, appending `v` with the next code if absent. -/
def lookup_value_or_insert (dict : List String) (v : String) : Int × List String :=
  match dict.findIdx? (· == v) with
  | some i => ((i : Int), dict)
  | none => ((dict.length : Int), dict ++ [v])

/-- Modelled from the spec: `Dictionary::truncate(max_did)` keeps exactly the
entries whose code is at most `max_did`. -/
def dictTruncate (dict : List String) (maxDid : Int) : List String :=
  dict.take (maxDid + 1).toNat

/-! ## Columns and batches (from `mutable_batch::column`, modelled from the spec) -/

/-- Column storage: one of six variants, each carrying its cumulative
statistics; tag columns also own their dictionary (`ColumnData`). -/
inductive ColumnData where
  | f64 (data : List Float) (stats : StatValues Float)
  | i64 (data : List Int) (stats : StatValues Int)
  | u64 (data : List Nat) (stats : StatValues Nat)
  | string (data : List String) (stats : StatValues String)
  | bool (data : List Bool) (stats : StatValues Bool)
  | tag (data : List Int) (dict : List String) (stats : StatValues String)

/-- A named typed column: semantic type, validity bitmap, storage. -/
structure Column where
  influx_type : InfluxColumnType
  valid : List Bool
  data : ColumnData

instance : Inhabited Column := ⟨⟨InfluxColumnType.timestamp, [], ColumnData.i64 [] {}⟩⟩

/-- Modelled from the spec: `Column::new(row_count, influx_type)` creates an
all-null column of `row_count` rows whose storage variant matches the type. -/
def Column.new (row_count : Nat) (t : InfluxColumnType) : Column :=
  { influx_type := t
    valid := List.replicate row_count false
    data :=
      match t with
      | .field .float => .f64 (List.replicate row_count 0.0) {}
      | .field .integer => .i64 (List.replicate row_count 0) {}
      | .field .uinteger => .u64 (List.replicate row_count 0) {}
      | .field .boolean => .bool (List.replicate row_count false) {}
      | .field .string => .string (List.replicate row_count "") {}
      | .tag => .tag (List.replicate row_count INVALID_DID) [] {}
      | .timestamp => .i64 (List.replicate row_count 0) {} }

/-- Rust `Vec::resize(n, x)`: truncate or pad with `x` to length exactly `n`. -/
def listResize {α : Type} (l : List α) (n : Nat) (x : α) : List α :=
  l.take n ++ List.replicate (n - l.length) x

/-- Modelled from the spec: `Column::push_nulls_to_len` pads the validity
bitmap and the value store with null entries up to `len` rows and accounts for
the added nulls in the cumulative statistics. -/
def Column.push_nulls_to_len (c : Column) (len : Nat) : Column :=
  let pad := len - c.valid.length
  { c with
    valid := c.valid ++ List.replicate pad false
    data :=
      match c.data with
      | .f64 d s => .f64 (d ++ List.replicate pad 0.0) (s.update_for_nulls pad)
      | .i64 d s => .i64 (d ++ List.replicate pad 0) (s.update_for_nulls pad)
      | .u64 d s => .u64 (d ++ List.replicate pad 0) (s.update_for_nulls pad)
      | .string d s => .string (d ++ List.replicate pad "") (s.update_for_nulls pad)
      | .bool d s => .bool (d ++ List.replicate pad false) (s.update_for_nulls pad)
      | .tag d dict s => .tag (d ++ List.replicate pad INVALID_DID) dict (s.update_for_nulls pad) }

/-- The in-memory table (`MutableBatch`): name index, ordered columns, row count. -/
structure MutableBatch where
  column_names : List (String × Nat) := []
  columns : List Column := []
  row_count : Nat := 0

instance : Inhabited MutableBatch := ⟨{}⟩

/-! ## The Writer (translated from writer.rs) -/

/-- The transaction object of writer.rs: the borrowed batch, the deferred
statistics records, the initial row count, the number of rows to insert and
the committed flag. -/
structure Writer where
  batch : MutableBatch
  statistics : List (Nat × Statistics) := []
  initial_rows : Nat
  to_insert : Nat
  success : Bool := false

/-- Translated from `Writer::new` (writer.rs lines 54-63). -/
def Writer.new (batch : MutableBatch) (to_insert : Nat) : Writer :=
  { batch := batch
    statistics := []
    initial_rows := batch.row_count
    to_insert := to_insert
    success := false }

/-- Translated from `set_position_iterator` (writer.rs lines 539-549): the set
positions of the mask below `to_insert`, or all of `0..to_insert` when dense. -/
def set_position_iterator (valid_mask : Option (List Nat)) (to_insert : Nat) : List Nat :=
  match valid_mask with
  | some mask => (iter_set_positions mask).takeWhile (fun idx => idx < to_insert)
  | none => List.range to_insert

/-- Translated from `append_valid_mask` (writer.rs lines 551-556). -/
def append_valid_mask (column : Column) (valid_mask : Option (List Nat)) (to_insert : Nat) :
    Column :=
  match valid_mask with
  | some mask => { column with valid := column.valid ++ maskBits mask to_insert }
  | none => { column with valid := column.valid ++ List.replicate to_insert true }

/-- Result of `column_mut`: the resolved column index, a recoverable error, or
a fatal row-count assertion failure. -/
inductive ColRes where
  | ok (idx : Nat)
  | err (e : Error)
  | panicked
deriving DecidableEq, Repr

/-- Translated from `Writer::column_mut` (writer.rs lines 436-477): resolve
`name`, creating an all-null column of `initial_rows` rows on first use;
reject a semantic-type mismatch; assert the column has `initial_rows` rows. -/
def column_mut (b : MutableBatch) (initial_rows : Nat) (name : String)
    (influx_type : InfluxColumnType) : MutableBatch × ColRes :=
  let columns_len := b.columns.length
  let resolved :=
    match b.column_names.lookup name with
    | some idx => (idx, b.column_names)
    | none => (columns_len, b.column_names ++ [(name, columns_len)])
  let column_idx := resolved.1
  let columns :=
    if columns_len = column_idx then
      b.columns ++ [Column.new initial_rows influx_type]
    else
      b.columns
  let b := { b with column_names := resolved.2, columns := columns }
  let col := b.columns.getD column_idx default
  (b,
    if col.influx_type ≠ influx_type then
      .err (.typeMismatch col.influx_type influx_type)
    else if col.valid.length ≠ initial_rows then
      .panicked
    else
      .ok column_idx)

/-- Replace column `i` of a batch. -/
def setColumn (b : MutableBatch) (i : Nat) (c : Column) : MutableBatch :=
  { b with columns := b.columns.set i c }

/-- The shared shape of the per-row write loops of writer.rs: walk the
required row offsets in order, pulling one value per offset and folding it
with `step`; report the partially updated state, the remaining values, and
whether the value sequence sufficed (`false` is `InsufficientValues`). -/
def writeLoop {σ α : Type} (step : σ → Nat → α → σ) :
    List Nat → List α → σ → σ × List α × Bool
  | [], vs, s => (s, vs, true)
  | _ :: _, [], s => (s, [], false)
  | p :: ps, v :: vs, s => writeLoop step ps vs (step s p v)

/-- Loop body shared by the f64/i64/u64 writes and `write_time`: store the
value at `initial_rows + idx` and fold it into the accumulator. -/
def stepVal {α : Type} [ValOrd α] (ir : Nat) (s : List α × StatValues α) (p : Nat) (v : α) :
    List α × StatValues α :=
  (s.1.set (ir + p) v, s.2.update v)

/-- Loop body of `write_bool`: set the bit only for `true` values. -/
def stepBool (ir : Nat) (s : List Bool × StatValues Bool) (p : Nat) (v : Bool) :
    List Bool × StatValues Bool :=
  (if v then s.1.set (ir + p) true else s.1, s.2.update v)

/-- Loop body of `write_string`: extend the packed store with empty strings up
to `initial_rows + idx`, then append the value. -/
def stepString (ir : Nat) (s : List String × StatValues String) (p : Nat) (v : String) :
    List String × StatValues String :=
  (s.1 ++ List.replicate (ir + p - s.1.length) "" ++ [v], s.2.update v)

/-- Loop body of `write_tag`: resolve the value through the dictionary and
store the resulting code. -/
def stepTag (ir : Nat) (s : List Int × List String × StatValues String) (p : Nat) (v : String) :
    List Int × List String × StatValues String :=
  let r := lookup_value_or_insert s.2.1 v
  (s.1.set (ir + p) r.1, r.2, s.2.2.update v)

/-- Translated from `Writer::write_f64` (writer.rs lines 74-108). -/
def Writer.write_f64 (w : Writer) (name : String) (valid_mask : Option (List Nat))
    (values : List Float) : Writer × Outcome :=
  let ir := w.initial_rows
  let n := w.to_insert
  match column_mut w.batch ir name (.field .float) with
  | (b, .err e) => ({ w with batch := b }, .err e)
  | (b, .panicked) => ({ w with batch := b }, .panicked)
  | (b, .ok col_idx) =>
    let col := b.columns.getD col_idx default
    match col.data with
    | .f64 col_data cstats =>
      let col_data := listResize col_data (ir + n) 0.0
      match writeLoop (stepVal ir) (set_position_iterator valid_mask n) values
          (col_data, StatValues.new_empty) with
      | ((col_data, _), _, false) =>
        ({ w with batch := setColumn b col_idx { col with data := .f64 col_data cstats } },
          .err .insufficientValues)
      | ((col_data, stats), _, true) =>
        let col := { col with data := .f64 col_data cstats }
        let col := append_valid_mask col valid_mask n
        let stats := stats.update_for_nulls (n - stats.total_count)
        ({ w with batch := setColumn b col_idx col
                  statistics := w.statistics ++ [(col_idx, .f64 stats)] }, .ok)
    | _ => ({ w with batch := b }, .panicked)

/-- Translated from `Writer::write_i64` (writer.rs lines 119-153). -/
def Writer.write_i64 (w : Writer) (name : String) (valid_mask : Option (List Nat))
    (values : List Int) : Writer × Outcome :=
  let ir := w.initial_rows
  let n := w.to_insert
  match column_mut w.batch ir name (.field .integer) with
  | (b, .err e) => ({ w with batch := b }, .err e)
  | (b, .panicked) => ({ w with batch := b }, .panicked)
  | (b, .ok col_idx) =>
    let col := b.columns.getD col_idx default
    match col.data with
    | .i64 col_data cstats =>
      let col_data := listResize col_data (ir + n) 0
      match writeLoop (stepVal ir) (set_position_iterator valid_mask n) values
          (col_data, StatValues.new_empty) with
      | ((col_data, _), _, false) =>
        ({ w with batch := setColumn b col_idx { col with data := .i64 col_data cstats } },
          .err .insufficientValues)
      | ((col_data, stats), _, true) =>
        let col := { col with data := .i64 col_data cstats }
        let col := append_valid_mask col valid_mask n
        let stats := stats.update_for_nulls (n - stats.total_count)
        ({ w with batch := setColumn b col_idx col
                  statistics := w.statistics ++ [(col_idx, .i64 stats)] }, .ok)
    | _ => ({ w with batch := b }, .panicked)

/-- Translated from `Writer::write_u64` (writer.rs lines 164-198). -/
def Writer.write_u64 (w : Writer) (name : String) (valid_mask : Option (List Nat))
    (values : List Nat) : Writer × Outcome :=
  let ir := w.initial_rows
  let n := w.to_insert
  match column_mut w.batch ir name (.field .uinteger) with
  | (b, .err e) => ({ w with batch := b }, .err e)
  | (b, .panicked) => ({ w with batch := b }, .panicked)
  | (b, .ok col_idx) =>
    let col := b.columns.getD col_idx default
    match col.data with
    | .u64 col_data cstats =>
      let col_data := listResize col_data (ir + n) 0
      match writeLoop (stepVal ir) (set_position_iterator valid_mask n) values
          (col_data, StatValues.new_empty) with
      | ((col_data, _), _, false) =>
        ({ w with batch := setColumn b col_idx { col with data := .u64 col_data cstats } },
          .err .insufficientValues)
      | ((col_data, stats), _, true) =>
        let col := { col with data := .u64 col_data cstats }
        let col := append_valid_mask col valid_mask n
        let stats := stats.update_for_nulls (n - stats.total_count)
        ({ w with batch := setColumn b col_idx col
                  statistics := w.statistics ++ [(col_idx, .u64 stats)] }, .ok)
    | _ => ({ w with batch := b }, .panicked)

/-- Translated from `Writer::write_bool` (writer.rs lines 209-245). -/
def Writer.write_bool (w : Writer) (name : String) (valid_mask : Option (List Nat))
    (values : List Bool) : Writer × Outcome :=
  let ir := w.initial_rows
  let n := w.to_insert
  match column_mut w.batch ir name (.field .boolean) with
  | (b, .err e) => ({ w with batch := b }, .err e)
  | (b, .panicked) => ({ w with batch := b }, .panicked)
  | (b, .ok col_idx) =>
    let col := b.columns.getD col_idx default
    match col.data with
    | .bool col_data cstats =>
      let col_data := col_data ++ List.replicate n false
      match writeLoop (stepBool ir) (set_position_iterator valid_mask n) values
          (col_data, StatValues.new_empty) with
      | ((col_data, _), _, false) =>
        ({ w with batch := setColumn b col_idx { col with data := .bool col_data cstats } },
          .err .insufficientValues)
      | ((col_data, stats), _, true) =>
        let col := { col with data := .bool col_data cstats }
        let col := append_valid_mask col valid_mask n
        let stats := stats.update_for_nulls (n - stats.total_count)
        ({ w with batch := setColumn b col_idx col
                  statistics := w.statistics ++ [(col_idx, .bool stats)] }, .ok)
    | _ => ({ w with batch := b }, .panicked)

/-- Translated from `Writer::write_string` (writer.rs lines 256-290). -/
def Writer.write_string (w : Writer) (name : String) (valid_mask : Option (List Nat))
    (values : List String) : Writer × Outcome :=
  let ir := w.initial_rows
  let n := w.to_insert
  match column_mut w.batch ir name (.field .string) with
  | (b, .err e) => ({ w with batch := b }, .err e)
  | (b, .panicked) => ({ w with batch := b }, .panicked)
  | (b, .ok col_idx) =>
    let col := b.columns.getD col_idx default
    match col.data with
    | .string col_data cstats =>
      match writeLoop (stepString ir) (set_position_iterator valid_mask n) values
          (col_data, StatValues.new_empty) with
      | ((col_data, _), _, false) =>
        ({ w with batch := setColumn b col_idx { col with data := .string col_data cstats } },
          .err .insufficientValues)
      | ((col_data, stats), _, true) =>
        let col := { col with data := .string col_data cstats }
        let col := append_valid_mask col valid_mask n
        let stats := stats.update_for_nulls (n - stats.total_count)
        ({ w with batch := setColumn b col_idx col
                  statistics := w.statistics ++ [(col_idx, .string stats)] }, .ok)
    | _ => ({ w with batch := b }, .panicked)

/-- Translated from `Writer::write_tag` (writer.rs lines 301-335). -/
def Writer.write_tag (w : Writer) (name : String) (valid_mask : Option (List Nat))
    (values : List String) : Writer × Outcome :=
  let ir := w.initial_rows
  let n := w.to_insert
  match column_mut w.batch ir name .tag with
  | (b, .err e) => ({ w with batch := b }, .err e)
  | (b, .panicked) => ({ w with batch := b }, .panicked)
  | (b, .ok col_idx) =>
    let col := b.columns.getD col_idx default
    match col.data with
    | .tag col_data dict cstats =>
      let col_data := listResize col_data (ir + n) INVALID_DID
      match writeLoop (stepTag ir) (set_position_iterator valid_mask n) values
          (col_data, dict, StatValues.new_empty) with
      | ((col_data, dict, _), _, false) =>
        ({ w with batch := setColumn b col_idx { col with data := .tag col_data dict cstats } },
          .err .insufficientValues)
      | ((col_data, dict, stats), _, true) =>
        let col := { col with data := .tag col_data dict cstats }
        let col := append_valid_mask col valid_mask n
        let stats := stats.update_for_nulls (n - stats.total_count)
        ({ w with batch := setColumn b col_idx col
                  statistics := w.statistics ++ [(col_idx, .string stats)] }, .ok)
    | _ => ({ w with batch := b }, .panicked)

/-- Result of the dictionary-coded tag loop. -/
inductive TdRes where
  | ok
  | insufficient
  | keyNotFound (k : Nat)
deriving DecidableEq, Repr

/-- The per-row loop of `write_tag_dict`: consume one local key per required
offset; unknown keys fail with `KeyNotFound`; a key is resolved through the
dictionary at most once, its code cached in the local mapping. -/
def tagDictLoop (ir : Nat) :
    List Nat → List Nat → List (String × Option Int) → List Int → List String →
      StatValues String →
      List Int × List String × List (String × Option Int) × StatValues String × TdRes
  | [], _, m, d, dict, st => (d, dict, m, st, .ok)
  | _ :: _, [], m, d, dict, st => (d, dict, m, st, .insufficient)
  | p :: ps, k :: ks, m, d, dict, st =>
    match m[k]? with
    | none => (d, dict, m, st, .keyNotFound k)
    | some (v, some did) => tagDictLoop ir ps ks m (d.set (ir + p) did) dict (st.update v)
    | some (v, none) =>
      let r := lookup_value_or_insert dict v
      tagDictLoop ir ps ks (m.set k (v, some r.1)) (d.set (ir + p) r.1) r.2 (st.update v)

/-- Translated from `Writer::write_tag_dict` (writer.rs lines 346-395). -/
def Writer.write_tag_dict (w : Writer) (name : String) (valid_mask : Option (List Nat))
    (keys : List Nat) (values : List String) : Writer × Outcome :=
  let ir := w.initial_rows
  let n := w.to_insert
  match column_mut w.batch ir name .tag with
  | (b, .err e) => ({ w with batch := b }, .err e)
  | (b, .panicked) => ({ w with batch := b }, .panicked)
  | (b, .ok col_idx) =>
    let col := b.columns.getD col_idx default
    match col.data with
    | .tag col_data dict cstats =>
      let mapping := values.map (fun v => (v, (none : Option Int)))
      let col_data := listResize col_data (ir + n) INVALID_DID
      match tagDictLoop ir (set_position_iterator valid_mask n) keys mapping col_data dict
          StatValues.new_empty with
      | (col_data, dict, _, _, .insufficient) =>
        ({ w with batch := setColumn b col_idx { col with data := .tag col_data dict cstats } },
          .err .insufficientValues)
      | (col_data, dict, _, _, .keyNotFound k) =>
        ({ w with batch := setColumn b col_idx { col with data := .tag col_data dict cstats } },
          .err (.keyNotFound k))
      | (col_data, dict, _, stats, .ok) =>
        let col := { col with data := .tag col_data dict cstats }
        let col := append_valid_mask col valid_mask n
        let stats := stats.update_for_nulls (n - stats.total_count)
        ({ w with batch := setColumn b col_idx col
                  statistics := w.statistics ++ [(col_idx, .string stats)] }, .ok)
    | _ => ({ w with batch := b }, .panicked)

/-- Translated from `Writer::write_time` (writer.rs lines 406-434): a dense
write of the timestamp column, no mask permitted. -/
def Writer.write_time (w : Writer) (name : String) (values : List Int) : Writer × Outcome :=
  let ir := w.initial_rows
  let n := w.to_insert
  match column_mut w.batch ir name .timestamp with
  | (b, .err e) => ({ w with batch := b }, .err e)
  | (b, .panicked) => ({ w with batch := b }, .panicked)
  | (b, .ok col_idx) =>
    let col := b.columns.getD col_idx default
    match col.data with
    | .i64 col_data cstats =>
      let col_data := listResize col_data (ir + n) 0
      match writeLoop (stepVal ir) (List.range n) values (col_data, StatValues.new_empty) with
      | ((col_data, _), _, false) =>
        ({ w with batch := setColumn b col_idx { col with data := .i64 col_data cstats } },
          .err .insufficientValues)
      | ((col_data, stats), _, true) =>
        let col := { col with data := .i64 col_data cstats }
        let col := append_valid_mask col none n
        let stats := stats.update_for_nulls (n - stats.total_count)
        ({ w with batch := setColumn b col_idx col
                  statistics := w.statistics ++ [(col_idx, .i64 stats)] }, .ok)
    | _ => ({ w with batch := b }, .panicked)

/-! ## Commit (translated from `Writer::commit`, writer.rs lines 481-536) -/

/-- Insert one statistics record into a list sorted by column index. -/
def insertStat (x : Nat × Statistics) : List (Nat × Statistics) → List (Nat × Statistics)
  | [] => [x]
  | y :: ys => if x.1 ≤ y.1 then x :: y :: ys else y :: insertStat x ys

/-- Sorting of the pending statistics by column index
(`sort_unstable_by_key` in writer.rs). -/
def sortStats : List (Nat × Statistics) → List (Nat × Statistics)
  | [] => []
  | x :: xs => insertStat x (sortStats xs)

/-- One step of the statistics merge of `commit`: the column storage variant
must match the pending record (anything else is the `unreachable!` arm); tag
columns recompute `distinct_count` from the dictionary size, plus one when the
merged null count is nonzero. -/
def mergeArm (col : Column) (s : Statistics) : Option Column :=
  match col.data, s with
  | .f64 d cs, .f64 ns => some { col with data := .f64 d (cs.update_from ns) }
  | .i64 d cs, .i64 ns => some { col with data := .i64 d (cs.update_from ns) }
  | .u64 d cs, .u64 ns => some { col with data := .u64 d (cs.update_from ns) }
  | .string d cs, .string ns => some { col with data := .string d (cs.update_from ns) }
  | .bool d cs, .bool ns => some { col with data := .bool d (cs.update_from ns) }
  | .tag d dict cs, .string ns =>
    let cs := cs.update_from ns
    let cs := { cs with
      distinct_count :=
        if cs.null_count = 0 then nonZeroNew dict.length else nonZeroNew (dict.length + 1) }
    some { col with data := .tag d dict cs }
  | _, _ => none

/-- The per-column walk of `commit`: untouched columns (validity still at
`initial`) are padded with nulls; touched columns must be at `final` rows
(else the assert fires) and consume the next statistics record, whose column
index must match. `none` models a fatal panic. -/
def commitCols (initial final : Nat) :
    List Column → Nat → List (Nat × Statistics) → Option (List Column)
  | [], _, _ => some []
  | col :: rest, idx, stats =>
    if col.valid.length = initial then
      (commitCols initial final rest (idx + 1) stats).map (col.push_nulls_to_len final :: ·)
    else if col.valid.length ≠ final then
      none
    else
      match stats with
      | [] => none
      | (sidx, s) :: stail =>
        if sidx ≠ idx then none
        else
          match mergeArm col s with
          | none => none
          | some col2 => (commitCols initial final rest (idx + 1) stail).map (col2 :: ·)

/-- Translated from `Writer::commit` (writer.rs lines 481-536); `none` models
a fatal assertion failure inside commit. -/
def Writer.commit (w : Writer) : Option MutableBatch :=
  let final := w.initial_rows + w.to_insert
  match commitCols w.initial_rows final w.batch.columns 0 (sortStats w.statistics) with
  | none => none
  | some cols => some { w.batch with columns := cols, row_count := final }

/-! ## Rollback (translated from `Drop for Writer`, writer.rs lines 558-581) -/

/-- The dictionary part of rollback: truncate to the maximum code still
referenced by the retained rows, or clear if no rows remain. -/
def rollbackDict (d : List Int) (dict : List String) : List String :=
  match d.max? with
  | some m => dictTruncate dict m
  | none => []

/-- Rollback of one column: truncate the validity bitmap and value store to
`initial_rows`; tag columns additionally truncate their dictionary. -/
def rollbackCol (ir : Nat) (c : Column) : Column :=
  { c with
    valid := c.valid.take ir
    data :=
      match c.data with
      | .f64 d s => .f64 (d.take ir) s
      | .i64 d s => .i64 (d.take ir) s
      | .u64 d s => .u64 (d.take ir) s
      | .string d s => .string (d.take ir) s
      | .bool d s => .bool (d.take ir) s
      | .tag d dict s =>
        let d2 := d.take ir
        .tag d2 (rollbackDict d2 dict) s }

/-- Translated from `Drop for Writer`: if the writer was not committed, every
column is truncated back to `initial_rows`. -/
def rollback (w : Writer) : MutableBatch :=
  if w.success then w.batch
  else { w.batch with columns := w.batch.columns.map (rollbackCol w.initial_rows) }

/-! ## Write calls as first-class operations -/

/-- One typed write call, with all of its arguments. -/
inductive WriteOp where
  | wF64 (name : String) (mask : Option (List Nat)) (values : List Float)
  | wI64 (name : String) (mask : Option (List Nat)) (values : List Int)
  | wU64 (name : String) (mask : Option (List Nat)) (values : List Nat)
  | wBool (name : String) (mask : Option (List Nat)) (values : List Bool)
  | wStr (name : String) (mask : Option (List Nat)) (values : List String)
  | wTag (name : String) (mask : Option (List Nat)) (values : List String)
  | wTagDict (name : String) (mask : Option (List Nat)) (keys : List Nat)
      (values : List String)
  | wTime (name : String) (values : List Int)

/-- The column name a write call targets. -/
def WriteOp.opName : WriteOp → String
  | .wF64 name _ _ => name
  | .wI64 name _ _ => name
  | .wU64 name _ _ => name
  | .wBool name _ _ => name
  | .wStr name _ _ => name
  | .wTag name _ _ => name
  | .wTagDict name _ _ _ => name
  | .wTime name _ => name

/-- The semantic column type a write call requests. -/
def WriteOp.opType : WriteOp → InfluxColumnType
  | .wF64 _ _ _ => .field .float
  | .wI64 _ _ _ => .field .integer
  | .wU64 _ _ _ => .field .uinteger
  | .wBool _ _ _ => .field .boolean
  | .wStr _ _ _ => .field .string
  | .wTag _ _ _ => .tag
  | .wTagDict _ _ _ _ => .tag
  | .wTime _ _ => .timestamp

/-- The valid mask of a write call (`none` also for the dense timestamp write). -/
def WriteOp.opMask : WriteOp → Option (List Nat)
  | .wF64 _ mask _ => mask
  | .wI64 _ mask _ => mask
  | .wU64 _ mask _ => mask
  | .wBool _ mask _ => mask
  | .wStr _ mask _ => mask
  | .wTag _ mask _ => mask
  | .wTagDict _ mask _ _ => mask
  | .wTime _ _ => none

/-- Replace the valid mask of a masked write call (the timestamp write has
none and is left unchanged). -/
def WriteOp.setMask : WriteOp → Option (List Nat) → WriteOp
  | .wF64 name _ vs, m => .wF64 name m vs
  | .wI64 name _ vs, m => .wI64 name m vs
  | .wU64 name _ vs, m => .wU64 name m vs
  | .wBool name _ vs, m => .wBool name m vs
  | .wStr name _ vs, m => .wStr name m vs
  | .wTag name _ vs, m => .wTag name m vs
  | .wTagDict name _ ks vs, m => .wTagDict name m ks vs
  | .wTime name vs, _ => .wTime name vs

/-- The length of the input sequence a write call draws from (the key
sequence for the dictionary-coded write). -/
def WriteOp.valuesLen : WriteOp → Nat
  | .wF64 _ _ vs => vs.length
  | .wI64 _ _ vs => vs.length
  | .wU64 _ _ vs => vs.length
  | .wBool _ _ vs => vs.length
  | .wStr _ _ vs => vs.length
  | .wTag _ _ vs => vs.length
  | .wTagDict _ _ ks _ => ks.length
  | .wTime _ vs => vs.length

/-- Whether the call is the dictionary-coded tag write. -/
def WriteOp.isTagDict : WriteOp → Bool
  | .wTagDict _ _ _ _ => true
  | _ => false

/-- The number of required row offsets of a write call: the set positions of
the mask below `to_insert`, or all of `0..to_insert` when dense. -/
def WriteOp.required (op : WriteOp) (to_insert : Nat) : Nat :=
  (set_position_iterator op.opMask to_insert).length

/-- The storage variant of the resolved column matches the write call. -/
def variantOk (op : WriteOp) (c : Column) : Prop :=
  match op, c.data with
  | .wF64 _ _ _, .f64 _ _ => True
  | .wI64 _ _ _, .i64 _ _ => True
  | .wU64 _ _ _, .u64 _ _ => True
  | .wBool _ _ _, .bool _ _ => True
  | .wStr _ _ _, .string _ _ => True
  | .wTag _ _ _, .tag _ _ _ => True
  | .wTagDict _ _ _ _, .tag _ _ _ => True
  | .wTime _ _, .i64 _ _ => True
  | _, _ => False

/-- Perform one write call on a writer. -/
def applyOp (w : Writer) : WriteOp → Writer × Outcome
  | .wF64 name mask vs => w.write_f64 name mask vs
  | .wI64 name mask vs => w.write_i64 name mask vs
  | .wU64 name mask vs => w.write_u64 name mask vs
  | .wBool name mask vs => w.write_bool name mask vs
  | .wStr name mask vs => w.write_string name mask vs
  | .wTag name mask vs => w.write_tag name mask vs
  | .wTagDict name mask ks vs => w.write_tag_dict name mask ks vs
  | .wTime name vs => w.write_time name vs

/-- Perform a sequence of write calls, keeping going whatever each outcome
was (as a caller that ignores recoverable errors may). -/
def applyOps (w : Writer) : List WriteOp → Writer
  | [] => w
  | op :: ops => applyOps (applyOp w op).1 ops

/-! ## Basic facts about the write loops -/

/-- The write loops report `false` exactly when the value sequence is
exhausted before all required offsets are filled. -/
theorem writeLoop_flag_false {σ α : Type} (step : σ → Nat → α → σ) :
    ∀ (ps : List Nat) (vs : List α) (s : σ), vs.length < ps.length →
      (writeLoop step ps vs s).2.2 = false
  | [], _, _, h => absurd h (by simp)
  | _ :: _, [], _, _ => rfl
  | _ :: ps, v :: vs, s, h =>
    writeLoop_flag_false step ps vs _ (by simpa using h)

/-- With enough values the write loops succeed, consuming exactly one value
per required offset and leaving the surplus unconsumed. -/
theorem writeLoop_snd_of_le {σ α : Type} (step : σ → Nat → α → σ) :
    ∀ (ps : List Nat) (vs : List α) (s : σ), ps.length ≤ vs.length →
      (writeLoop step ps vs s).2 = (vs.drop ps.length, true)
  | [], vs, s, _ => by simp [writeLoop]
  | _ :: _, [], _, h => absurd h (by simp)
  | _ :: ps, v :: vs, s, h => by
    show (writeLoop step ps vs _).2 = _
    rw [writeLoop_snd_of_le step ps vs _ (by simpa using h)]
    simp

/-- Invariant preservation along a write loop. -/
theorem writeLoop_fst_inv {σ α : Type} (step : σ → Nat → α → σ) (P : σ → Prop)
    (hstep : ∀ s p v, P s → P (step s p v)) :
    ∀ (ps : List Nat) (vs : List α) (s : σ), P s → P (writeLoop step ps vs s).1
  | [], _, _, h => h
  | _ :: _, [], _, h => h
  | p :: ps, v :: vs, s, h =>
    writeLoop_fst_inv step P hstep ps vs (step s p v) (hstep s p v h)

/-! ## Claim C3: mask fidelity of the spec example -/

/-- The spec example: an int64 write of five rows with mask `0b01011` and
values `[10, 20, 30]` on a fresh batch. -/
def c3_write : Writer × Outcome :=
  (Writer.new {} 5).write_i64 "c" (some [0b01011]) [10, 20, 30]

/-- The rows of an int64 column in validity/value terms (`none` is null). -/
def i64Rows (c : Column) : List (Option Int) :=
  match c.data with
  | .i64 d _ =>
    (List.range c.valid.length).map
      (fun j => if c.valid.getD j false then some (d.getD j 0) else none)
  | _ => []

/-- C3 counterexample: the write of `rows_to_add = 5`, mask `0b01011`,
values `[10, 20, 30]` succeeds, but the five new rows are NOT
`[10, null, 20, 30, null]` as the claim states. -/
theorem c3_counterexample :
    c3_write.2 = Outcome.ok ∧
      i64Rows (c3_write.1.batch.columns.getD 0 default) ≠
        [some 10, none, some 20, some 30, none] := by
  constructor
  · decide
  · decide

/-- C3 amended: mask `0b01011` has set bits at row offsets 0, 1 and 3
(LSB-first, bit i governs row i), so the five new rows are
`[10, 20, null, 30, null]` in validity/value terms. -/
theorem c3_amended :
    c3_write.2 = Outcome.ok ∧
      i64Rows (c3_write.1.batch.columns.getD 0 default) =
        [some 10, some 20, none, some 30, none] := by
  constructor
  · decide
  · decide

/-! ## Claim C7: type mismatch rejection -/

/-- Resolving an existing column under a different semantic type fails with
`TypeMismatch (existing, requested)` and leaves the batch untouched. -/
theorem column_mut_mismatch (b : MutableBatch) (ir : Nat) (name : String)
    (t : InfluxColumnType) (idx : Nat)
    (h1 : b.column_names.lookup name = some idx)
    (h2 : idx < b.columns.length)
    (h3 : (b.columns.getD idx default).influx_type ≠ t) :
    column_mut b ir name t =
      (b, .err (.typeMismatch (b.columns.getD idx default).influx_type t)) := by
  have hne : ¬ (b.columns.length = idx) := Nat.ne_of_gt h2
  unfold column_mut
  rw [h1]
  simp only [if_neg hne, if_pos h3]

/-- C7: when a typed write targets an existing column whose semantic type
differs from the requested one, the call returns `TypeMismatch` carrying the
existing and the requested type, and the whole writer (batch included) is
returned unchanged. -/
theorem c7_type_mismatch :
    ∀ (op : WriteOp) (w : Writer) (idx : Nat) (te : InfluxColumnType),
      w.batch.column_names.lookup op.opName = some idx →
      idx < w.batch.columns.length →
      (w.batch.columns.getD idx default).influx_type = te →
      te ≠ op.opType →
      applyOp w op = (w, .err (.typeMismatch te op.opType)) := by
  intro op w idx te h1 h2 h3 h4
  have hmm := column_mut_mismatch w.batch w.initial_rows op.opName op.opType idx h1 h2
    (by rw [h3]; exact h4)
  rw [h3] at hmm
  cases op with
  | wF64 name mask vs =>
    simp only [applyOp, WriteOp.opName, WriteOp.opType] at hmm ⊢
    unfold Writer.write_f64
    dsimp only
    rw [hmm]
  | wI64 name mask vs =>
    simp only [applyOp, WriteOp.opName, WriteOp.opType] at hmm ⊢
    unfold Writer.write_i64
    dsimp only
    rw [hmm]
  | wU64 name mask vs =>
    simp only [applyOp, WriteOp.opName, WriteOp.opType] at hmm ⊢
    unfold Writer.write_u64
    dsimp only
    rw [hmm]
  | wBool name mask vs =>
    simp only [applyOp, WriteOp.opName, WriteOp.opType] at hmm ⊢
    unfold Writer.write_bool
    dsimp only
    rw [hmm]
  | wStr name mask vs =>
    simp only [applyOp, WriteOp.opName, WriteOp.opType] at hmm ⊢
    unfold Writer.write_string
    dsimp only
    rw [hmm]
  | wTag name mask vs =>
    simp only [applyOp, WriteOp.opName, WriteOp.opType] at hmm ⊢
    unfold Writer.write_tag
    dsimp only
    rw [hmm]
  | wTagDict name mask ks vs =>
    simp only [applyOp, WriteOp.opName, WriteOp.opType] at hmm ⊢
    unfold Writer.write_tag_dict
    dsimp only
    rw [hmm]
  | wTime name vs =>
    simp only [applyOp, WriteOp.opName, WriteOp.opType] at hmm ⊢
    unfold Writer.write_time
    dsimp only
    rw [hmm]

/-- A one-row batch holding a single int64 field column named `c`. -/
def c7_batch : MutableBatch :=
  { column_names := [("c", 0)]
    columns := [⟨.field .integer, [true], .i64 [7] {}⟩]
    row_count := 1 }

/-- Writer over `c7_batch` used to witness C7. -/
def c7_writer : Writer := Writer.new c7_batch 1

/-- C7 witness: writing a string value to the int64 column `c` fails with
`TypeMismatch (int64 field, string field)` and returns the writer unchanged. -/
theorem c7_witness :
    c7_writer.batch.column_names.lookup "c" = some 0 ∧
    0 < c7_writer.batch.columns.length ∧
    (c7_writer.batch.columns.getD 0 default).influx_type = .field .integer ∧
    InfluxColumnType.field .integer ≠ (WriteOp.wStr "c" none ["x"]).opType ∧
    applyOp c7_writer (.wStr "c" none ["x"]) =
      (c7_writer, .err (.typeMismatch (.field .integer) (.field .string))) := by
  refine ⟨rfl, by decide, rfl, by decide, ?_⟩
  exact c7_type_mismatch (.wStr "c" none ["x"]) c7_writer 0 (.field .integer)
    rfl (by decide) rfl (by decide)

/-! ## Claims C4 and C10: value-sequence exhaustion and surplus -/

/-- C4: in every typed write call apart from the dictionary-coded one, if the
value sequence is shorter than the number of required row offsets (the set
mask positions below `rows_to_add`, or all of `0..rows_to_add` for a dense or
timestamp write), the call returns `InsufficientValues`. -/
theorem c4_insufficient_values :
    ∀ (op : WriteOp) (w : Writer) (b : MutableBatch) (idx : Nat),
      op.isTagDict = false →
      column_mut w.batch w.initial_rows op.opName op.opType = (b, .ok idx) →
      variantOk op (b.columns.getD idx default) →
      op.valuesLen < op.required w.to_insert →
      (applyOp w op).2 = .err .insufficientValues := by
  intro op w b idx htd hcm hvar hlen
  cases op with
  | wTagDict name mask ks vs => simp [WriteOp.isTagDict] at htd
  | wF64 name mask vs =>
    simp only [applyOp, WriteOp.opName, WriteOp.opType, WriteOp.valuesLen,
      WriteOp.required, WriteOp.opMask] at hcm hlen ⊢
    unfold Writer.write_f64
    dsimp only
    rw [hcm]
    dsimp only
    rcases hcd : (b.columns.getD idx default).data with ⟨d, s⟩ | ⟨d, s⟩ | ⟨d, s⟩
      | ⟨d, s⟩ | ⟨d, s⟩ | ⟨d, dict, s⟩ <;>
      simp only [variantOk, hcd] at hvar
    dsimp only
    have hf := writeLoop_flag_false (stepVal w.initial_rows)
      (set_position_iterator mask w.to_insert) vs
      (listResize d (w.initial_rows + w.to_insert) 0.0, StatValues.new_empty) hlen
    rcases hl : writeLoop (stepVal w.initial_rows) (set_position_iterator mask w.to_insert) vs
      (listResize d (w.initial_rows + w.to_insert) 0.0, StatValues.new_empty) with
      ⟨⟨d2, st2⟩, rem, flag⟩
    rw [hl] at hf
    simp only at hf
    subst hf
    rfl
  | wI64 name mask vs =>
    simp only [applyOp, WriteOp.opName, WriteOp.opType, WriteOp.valuesLen,
      WriteOp.required, WriteOp.opMask] at hcm hlen ⊢
    unfold Writer.write_i64
    dsimp only
    rw [hcm]
    dsimp only
    rcases hcd : (b.columns.getD idx default).data with ⟨d, s⟩ | ⟨d, s⟩ | ⟨d, s⟩
      | ⟨d, s⟩ | ⟨d, s⟩ | ⟨d, dict, s⟩ <;>
      simp only [variantOk, hcd] at hvar
    dsimp only
    have hf := writeLoop_flag_false (stepVal w.initial_rows)
      (set_position_iterator mask w.to_insert) vs
      (listResize d (w.initial_rows + w.to_insert) 0, StatValues.new_empty) hlen
    rcases hl : writeLoop (stepVal w.initial_rows) (set_position_iterator mask w.to_insert) vs
      (listResize d (w.initial_rows + w.to_insert) 0, StatValues.new_empty) with
      ⟨⟨d2, st2⟩, rem, flag⟩
    rw [hl] at hf
    simp only at hf
    subst hf
    rfl
  | wU64 name mask vs =>
    simp only [applyOp, WriteOp.opName, WriteOp.opType, WriteOp.valuesLen,
      WriteOp.required, WriteOp.opMask] at hcm hlen ⊢
    unfold Writer.write_u64
    dsimp only
    rw [hcm]
    dsimp only
    rcases hcd : (b.columns.getD idx default).data with ⟨d, s⟩ | ⟨d, s⟩ | ⟨d, s⟩
      | ⟨d, s⟩ | ⟨d, s⟩ | ⟨d, dict, s⟩ <;>
      simp only [variantOk, hcd] at hvar
    dsimp only
    have hf := writeLoop_flag_false (stepVal w.initial_rows)
      (set_position_iterator mask w.to_insert) vs
      (listResize d (w.initial_rows + w.to_insert) 0, StatValues.new_empty) hlen
    rcases hl : writeLoop (stepVal w.initial_rows) (set_position_iterator mask w.to_insert) vs
      (listResize d (w.initial_rows + w.to_insert) 0, StatValues.new_empty) with
      ⟨⟨d2, st2⟩, rem, flag⟩
    rw [hl] at hf
    simp only at hf
    subst hf
    rfl
  | wBool name mask vs =>
    simp only [applyOp, WriteOp.opName, WriteOp.opType, WriteOp.valuesLen,
      WriteOp.required, WriteOp.opMask] at hcm hlen ⊢
    unfold Writer.write_bool
    dsimp only
    rw [hcm]
    dsimp only
    rcases hcd : (b.columns.getD idx default).data with ⟨d, s⟩ | ⟨d, s⟩ | ⟨d, s⟩
      | ⟨d, s⟩ | ⟨d, s⟩ | ⟨d, dict, s⟩ <;>
      simp only [variantOk, hcd] at hvar
    dsimp only
    have hf := writeLoop_flag_false (stepBool w.initial_rows)
      (set_position_iterator mask w.to_insert) vs
      (d ++ List.replicate w.to_insert false, StatValues.new_empty) hlen
    rcases hl : writeLoop (stepBool w.initial_rows) (set_position_iterator mask w.to_insert) vs
      (d ++ List.replicate w.to_insert false, StatValues.new_empty) with
      ⟨⟨d2, st2⟩, rem, flag⟩
    rw [hl] at hf
    simp only at hf
    subst hf
    rfl
  | wStr name mask vs =>
    simp only [applyOp, WriteOp.opName, WriteOp.opType, WriteOp.valuesLen,
      WriteOp.required, WriteOp.opMask] at hcm hlen ⊢
    unfold Writer.write_string
    dsimp only
    rw [hcm]
    dsimp only
    rcases hcd : (b.columns.getD idx default).data with ⟨d, s⟩ | ⟨d, s⟩ | ⟨d, s⟩
      | ⟨d, s⟩ | ⟨d, s⟩ | ⟨d, dict, s⟩ <;>
      simp only [variantOk, hcd] at hvar
    dsimp only
    have hf := writeLoop_flag_false (stepString w.initial_rows)
      (set_position_iterator mask w.to_insert) vs (d, StatValues.new_empty) hlen
    rcases hl : writeLoop (stepString w.initial_rows) (set_position_iterator mask w.to_insert)
      vs (d, StatValues.new_empty) with ⟨⟨d2, st2⟩, rem, flag⟩
    rw [hl] at hf
    simp only at hf
    subst hf
    rfl
  | wTag name mask vs =>
    simp only [applyOp, WriteOp.opName, WriteOp.opType, WriteOp.valuesLen,
      WriteOp.required, WriteOp.opMask] at hcm hlen ⊢
    unfold Writer.write_tag
    dsimp only
    rw [hcm]
    dsimp only
    rcases hcd : (b.columns.getD idx default).data with ⟨d, s⟩ | ⟨d, s⟩ | ⟨d, s⟩
      | ⟨d, s⟩ | ⟨d, s⟩ | ⟨d, dict, s⟩ <;>
      simp only [variantOk, hcd] at hvar
    dsimp only
    have hf := writeLoop_flag_false (stepTag w.initial_rows)
      (set_position_iterator mask w.to_insert) vs
      (listResize d (w.initial_rows + w.to_insert) INVALID_DID, dict, StatValues.new_empty) hlen
    rcases hl : writeLoop (stepTag w.initial_rows) (set_position_iterator mask w.to_insert) vs
      (listResize d (w.initial_rows + w.to_insert) INVALID_DID, dict,
        StatValues.new_empty) with ⟨⟨d2, dict2, st2⟩, rem, flag⟩
    rw [hl] at hf
    simp only at hf
    subst hf
    rfl
  | wTime name vs =>
    simp only [applyOp, WriteOp.opName, WriteOp.opType, WriteOp.valuesLen,
      WriteOp.required, WriteOp.opMask, set_position_iterator, List.length_range] at hcm hlen ⊢
    unfold Writer.write_time
    dsimp only
    rw [hcm]
    dsimp only
    rcases hcd : (b.columns.getD idx default).data with ⟨d, s⟩ | ⟨d, s⟩ | ⟨d, s⟩
      | ⟨d, s⟩ | ⟨d, s⟩ | ⟨d, dict, s⟩ <;>
      simp only [variantOk, hcd] at hvar
    dsimp only
    have hf := writeLoop_flag_false (stepVal w.initial_rows) (List.range w.to_insert) vs
      (listResize d (w.initial_rows + w.to_insert) 0, StatValues.new_empty)
      (by simpa using hlen)
    rcases hl : writeLoop (stepVal w.initial_rows) (List.range w.to_insert) vs
      (listResize d (w.initial_rows + w.to_insert) 0, StatValues.new_empty) with
      ⟨⟨d2, st2⟩, rem, flag⟩
    rw [hl] at hf
    simp only at hf
    subst hf
    rfl

/-- Batch produced by resolving a fresh int64 column on an empty batch
(2-row transaction), used to witness C4. -/
def c4_batch : MutableBatch :=
  (column_mut (MutableBatch.mk [] [] 0) 0 "a" (.field .integer)).1

/-- C4 witness: a masked int64 write requiring two values but given one
returns `InsufficientValues`. -/
theorem c4_witness :
    (WriteOp.wI64 "a" (some [3]) [5]).isTagDict = false ∧
    column_mut (Writer.new {} 2).batch (Writer.new {} 2).initial_rows
      (WriteOp.wI64 "a" (some [3]) [5]).opName (WriteOp.wI64 "a" (some [3]) [5]).opType =
      (c4_batch, .ok 0) ∧
    variantOk (.wI64 "a" (some [3]) [5]) (c4_batch.columns.getD 0 default) ∧
    (WriteOp.wI64 "a" (some [3]) [5]).valuesLen <
      (WriteOp.wI64 "a" (some [3]) [5]).required (Writer.new {} 2).to_insert ∧
    (applyOp (Writer.new {} 2) (.wI64 "a" (some [3]) [5])).2 = .err .insufficientValues := by
  refine ⟨rfl, rfl, trivial, by decide, ?_⟩
  exact c4_insufficient_values (.wI64 "a" (some [3]) [5]) (Writer.new {} 2) c4_batch 0
    rfl rfl trivial (by decide)

/-- C10: in every typed write call apart from the dictionary-coded one, a
value sequence at least as long as the number of required offsets never
causes an error: the call succeeds; moreover the underlying write loop
consumes exactly one value per required offset, leaving any surplus
unconsumed. -/
theorem c10_surplus_values :
    (∀ (op : WriteOp) (w : Writer) (b : MutableBatch) (idx : Nat),
      op.isTagDict = false →
      column_mut w.batch w.initial_rows op.opName op.opType = (b, .ok idx) →
      variantOk op (b.columns.getD idx default) →
      op.required w.to_insert ≤ op.valuesLen →
      (applyOp w op).2 = .ok) ∧
    (∀ (σ α : Type) (step : σ → Nat → α → σ) (ps : List Nat) (vs : List α) (s : σ),
      ps.length ≤ vs.length →
      (writeLoop step ps vs s).2 = (vs.drop ps.length, true)) := by
  constructor
  · intro op w b idx htd hcm hvar hlen
    cases op with
    | wTagDict name mask ks vs => simp [WriteOp.isTagDict] at htd
    | wF64 name mask vs =>
      simp only [applyOp, WriteOp.opName, WriteOp.opType, WriteOp.valuesLen,
        WriteOp.required, WriteOp.opMask] at hcm hlen ⊢
      unfold Writer.write_f64
      dsimp only
      rw [hcm]
      dsimp only
      rcases hcd : (b.columns.getD idx default).data with ⟨d, s⟩ | ⟨d, s⟩ | ⟨d, s⟩
        | ⟨d, s⟩ | ⟨d, s⟩ | ⟨d, dict, s⟩ <;>
        simp only [variantOk, hcd] at hvar
      dsimp only
      have hf := writeLoop_snd_of_le (stepVal w.initial_rows)
        (set_position_iterator mask w.to_insert) vs
        (listResize d (w.initial_rows + w.to_insert) 0.0, StatValues.new_empty) hlen
      rcases hl : writeLoop (stepVal w.initial_rows) (set_position_iterator mask w.to_insert)
        vs (listResize d (w.initial_rows + w.to_insert) 0.0, StatValues.new_empty) with
        ⟨⟨d2, st2⟩, rem, flag⟩
      rw [hl] at hf
      simp only [Prod.mk.injEq] at hf
      obtain ⟨-, hflag⟩ := hf
      subst hflag
      rfl
    | wI64 name mask vs =>
      simp only [applyOp, WriteOp.opName, WriteOp.opType, WriteOp.valuesLen,
        WriteOp.required, WriteOp.opMask] at hcm hlen ⊢
      unfold Writer.write_i64
      dsimp only
      rw [hcm]
      dsimp only
      rcases hcd : (b.columns.getD idx default).data with ⟨d, s⟩ | ⟨d, s⟩ | ⟨d, s⟩
        | ⟨d, s⟩ | ⟨d, s⟩ | ⟨d, dict, s⟩ <;>
        simp only [variantOk, hcd] at hvar
      dsimp only
      have hf := writeLoop_snd_of_le (stepVal w.initial_rows)
        (set_position_iterator mask w.to_insert) vs
        (listResize d (w.initial_rows + w.to_insert) 0, StatValues.new_empty) hlen
      rcases hl : writeLoop (stepVal w.initial_rows) (set_position_iterator mask w.to_insert)
        vs (listResize d (w.initial_rows + w.to_insert) 0, StatValues.new_empty) with
        ⟨⟨d2, st2⟩, rem, flag⟩
      rw [hl] at hf
      simp only [Prod.mk.injEq] at hf
      obtain ⟨-, hflag⟩ := hf
      subst hflag
      rfl
    | wU64 name mask vs =>
      simp only [applyOp, WriteOp.opName, WriteOp.opType, WriteOp.valuesLen,
        WriteOp.required, WriteOp.opMask] at hcm hlen ⊢
      unfold Writer.write_u64
      dsimp only
      rw [hcm]
      dsimp only
      rcases hcd : (b.columns.getD idx default).data with ⟨d, s⟩ | ⟨d, s⟩ | ⟨d, s⟩
        | ⟨d, s⟩ | ⟨d, s⟩ | ⟨d, dict, s⟩ <;>
        simp only [variantOk, hcd] at hvar
      dsimp only
      have hf := writeLoop_snd_of_le (stepVal w.initial_rows)
        (set_position_iterator mask w.to_insert) vs
        (listResize d (w.initial_rows + w.to_insert) 0, StatValues.new_empty) hlen
      rcases hl : writeLoop (stepVal w.initial_rows) (set_position_iterator mask w.to_insert)
        vs (listResize d (w.initial_rows + w.to_insert) 0, StatValues.new_empty) with
        ⟨⟨d2, st2⟩, rem, flag⟩
      rw [hl] at hf
      simp only [Prod.mk.injEq] at hf
      obtain ⟨-, hflag⟩ := hf
      subst hflag
      rfl
    | wBool name mask vs =>
      simp only [applyOp, WriteOp.opName, WriteOp.opType, WriteOp.valuesLen,
        WriteOp.required, WriteOp.opMask] at hcm hlen ⊢
      unfold Writer.write_bool
      dsimp only
      rw [hcm]
      dsimp only
      rcases hcd : (b.columns.getD idx default).data with ⟨d, s⟩ | ⟨d, s⟩ | ⟨d, s⟩
        | ⟨d, s⟩ | ⟨d, s⟩ | ⟨d, dict, s⟩ <;>
        simp only [variantOk, hcd] at hvar
      dsimp only
      have hf := writeLoop_snd_of_le (stepBool w.initial_rows)
        (set_position_iterator mask w.to_insert) vs
        (d ++ List.replicate w.to_insert false, StatValues.new_empty) hlen
      rcases hl : writeLoop (stepBool w.initial_rows) (set_position_iterator mask w.to_insert)
        vs (d ++ List.replicate w.to_insert false, StatValues.new_empty) with
        ⟨⟨d2, st2⟩, rem, flag⟩
      rw [hl] at hf
      simp only [Prod.mk.injEq] at hf
      obtain ⟨-, hflag⟩ := hf
      subst hflag
      rfl
    | wStr name mask vs =>
      simp only [applyOp, WriteOp.opName, WriteOp.opType, WriteOp.valuesLen,
        WriteOp.required, WriteOp.opMask] at hcm hlen ⊢
      unfold Writer.write_string
      dsimp only
      rw [hcm]
      dsimp only
      rcases hcd : (b.columns.getD idx default).data with ⟨d, s⟩ | ⟨d, s⟩ | ⟨d, s⟩
        | ⟨d, s⟩ | ⟨d, s⟩ | ⟨d, dict, s⟩ <;>
        simp only [variantOk, hcd] at hvar
      dsimp only
      have hf := writeLoop_snd_of_le (stepString w.initial_rows)
        (set_position_iterator mask w.to_insert) vs (d, StatValues.new_empty) hlen
      rcases hl : writeLoop (stepString w.initial_rows) (set_position_iterator mask w.to_insert)
        vs (d, StatValues.new_empty) with ⟨⟨d2, st2⟩, rem, flag⟩
      rw [hl] at hf
      simp only [Prod.mk.injEq] at hf
      obtain ⟨-, hflag⟩ := hf
      subst hflag
      rfl
    | wTag name mask vs =>
      simp only [applyOp, WriteOp.opName, WriteOp.opType, WriteOp.valuesLen,
        WriteOp.required, WriteOp.opMask] at hcm hlen ⊢
      unfold Writer.write_tag
      dsimp only
      rw [hcm]
      dsimp only
      rcases hcd : (b.columns.getD idx default).data with ⟨d, s⟩ | ⟨d, s⟩ | ⟨d, s⟩
        | ⟨d, s⟩ | ⟨d, s⟩ | ⟨d, dict, s⟩ <;>
        simp only [variantOk, hcd] at hvar
      dsimp only
      have hf := writeLoop_snd_of_le (stepTag w.initial_rows)
        (set_position_iterator mask w.to_insert) vs
        (listResize d (w.initial_rows + w.to_insert) INVALID_DID, dict,
          StatValues.new_empty) hlen
      rcases hl : writeLoop (stepTag w.initial_rows) (set_position_iterator mask w.to_insert)
        vs (listResize d (w.initial_rows + w.to_insert) INVALID_DID, dict,
          StatValues.new_empty) with ⟨⟨d2, dict2, st2⟩, rem, flag⟩
      rw [hl] at hf
      simp only [Prod.mk.injEq] at hf
      obtain ⟨-, hflag⟩ := hf
      subst hflag
      rfl
    | wTime name vs =>
      simp only [applyOp, WriteOp.opName, WriteOp.opType, WriteOp.valuesLen,
        WriteOp.required, WriteOp.opMask, set_position_iterator, List.length_range]
        at hcm hlen ⊢
      unfold Writer.write_time
      dsimp only
      rw [hcm]
      dsimp only
      rcases hcd : (b.columns.getD idx default).data with ⟨d, s⟩ | ⟨d, s⟩ | ⟨d, s⟩
        | ⟨d, s⟩ | ⟨d, s⟩ | ⟨d, dict, s⟩ <;>
        simp only [variantOk, hcd] at hvar
      dsimp only
      have hf := writeLoop_snd_of_le (stepVal w.initial_rows) (List.range w.to_insert) vs
        (listResize d (w.initial_rows + w.to_insert) 0, StatValues.new_empty)
        (by simpa using hlen)
      rcases hl : writeLoop (stepVal w.initial_rows) (List.range w.to_insert) vs
        (listResize d (w.initial_rows + w.to_insert) 0, StatValues.new_empty) with
        ⟨⟨d2, st2⟩, rem, flag⟩
      rw [hl] at hf
      simp only [Prod.mk.injEq] at hf
      obtain ⟨-, hflag⟩ := hf
      subst hflag
      rfl
  · intro σ α step ps vs s h
    exact writeLoop_snd_of_le step ps vs s h

/-- C10 witness: a masked int64 write requiring two values but given three
succeeds; the loop leaves the surplus value unconsumed. -/
theorem c10_witness :
    (WriteOp.wI64 "a" (some [3]) [5, 6, 7]).isTagDict = false ∧
    column_mut (Writer.new {} 2).batch (Writer.new {} 2).initial_rows
      (WriteOp.wI64 "a" (some [3]) [5, 6, 7]).opName
      (WriteOp.wI64 "a" (some [3]) [5, 6, 7]).opType = (c4_batch, .ok 0) ∧
    variantOk (.wI64 "a" (some [3]) [5, 6, 7]) (c4_batch.columns.getD 0 default) ∧
    (WriteOp.wI64 "a" (some [3]) [5, 6, 7]).required (Writer.new {} 2).to_insert ≤
      (WriteOp.wI64 "a" (some [3]) [5, 6, 7]).valuesLen ∧
    (applyOp (Writer.new {} 2) (.wI64 "a" (some [3]) [5, 6, 7])).2 = .ok ∧
    (writeLoop (stepVal 0) (set_position_iterator (some [3]) 2) [(5 : Int), 6, 7]
      ([], StatValues.new_empty)).2 = ([7], true) := by
  refine ⟨rfl, rfl, trivial, by decide, ?_, ?_⟩
  · exact c10_surplus_values.1 (.wI64 "a" (some [3]) [5, 6, 7]) (Writer.new {} 2) c4_batch 0
      rfl rfl trivial (by decide)
  · have h := c10_surplus_values.2 (List Int × StatValues Int) Int (stepVal 0)
      (set_position_iterator (some [3]) 2) [(5 : Int), 6, 7] ([], StatValues.new_empty)
      (by decide)
    rw [h]
    decide

/-! ## Claim C9: mask bits at or beyond `rows_to_add` are ignored -/

/-- Bounded filters of a number range starting at or beyond the bound are empty. -/
theorem filter_and_lt_range' (p : Nat → Bool) (n : Nat) :
    ∀ (N a : Nat), n ≤ a →
      (List.range' a N).filter (fun i => p i && decide (i < n)) = [] := by
  intro N
  induction N with
  | zero => intro a _; rfl
  | succ N ih =>
    intro a ha
    rw [List.range'_succ, List.filter_cons]
    have hc : (p a && decide (a < n)) = false := by
      simp [Nat.not_lt.mpr ha]
    rw [hc]
    simpa using ih (a + 1) (le_trans ha (Nat.le_succ a))

/-- Over an increasing number range, stopping a filtered traversal at the
first position reaching `n` is the same as filtering out positions at or
beyond `n`. -/
theorem takeWhile_filter_range' (p : Nat → Bool) (n : Nat) :
    ∀ (N a : Nat),
      ((List.range' a N).filter p).takeWhile (fun i => decide (i < n)) =
        (List.range' a N).filter (fun i => p i && decide (i < n)) := by
  intro N
  induction N with
  | zero => intro a; rfl
  | succ N ih =>
    intro a
    rw [List.range'_succ, List.filter_cons, List.filter_cons]
    by_cases hp : p a = true
    · rw [if_pos (by simp [hp]), List.takeWhile_cons]
      by_cases hn : a < n
      · rw [if_pos (by simpa using hn), if_pos (by simp [hp, hn])]
        rw [ih (a + 1)]
      · rw [if_neg (by simpa using hn), if_neg (by simp [Nat.not_lt.mp hn, hp])]
        exact (filter_and_lt_range' p n N (a + 1)
          (le_trans (Nat.not_lt.mp hn) (Nat.le_succ a))).symm
    · rw [if_neg (by simpa using hp), if_neg (by simp [hp])]
      exact ih (a + 1)

/-- Mask bits at positions beyond the byte array read as unset. -/
theorem byteBit_ge (mask : List Nat) (i : Nat) (h : 8 * mask.length ≤ i) :
    byteBit mask i = false := by
  unfold byteBit
  rw [List.getD_eq_default]
  · exact Nat.zero_testBit _
  · rw [Nat.le_div_iff_mul_le (by norm_num)]
    omega

/-- The required offsets of a masked write are exactly the set bit positions
below `to_insert`, whatever further bits the mask carries. -/
theorem setPos_some_eq (mask : List Nat) (n : Nat) :
    set_position_iterator (some mask) n =
      (List.range n).filter (fun i => byteBit mask i) := by
  unfold set_position_iterator iter_set_positions
  dsimp only
  rw [List.range_eq_range' (8 * mask.length), List.range_eq_range' n,
    takeWhile_filter_range' (fun i => byteBit mask i) n (8 * mask.length) 0]
  rcases Nat.le_total n (8 * mask.length) with h | h
  · have hsplit : List.range' 0 (8 * mask.length) =
        List.range' 0 n ++ List.range' n (8 * mask.length - n) := by
      have heq := List.range'_append 0 n (8 * mask.length - n) 1
      simp only [Nat.one_mul, Nat.zero_add] at heq
      have hn : 8 * mask.length - n + n = 8 * mask.length := by omega
      rw [hn] at heq
      exact heq.symm
    rw [hsplit, List.filter_append, filter_and_lt_range' _ n _ n le_rfl, List.append_nil]
    apply List.filter_congr
    intro x hx
    have hxn : x < n := by
      have := List.mem_range'_1.mp hx
      omega
    simp [hxn]
  · have hsplit : List.range' 0 n =
        List.range' 0 (8 * mask.length) ++
          List.range' (8 * mask.length) (n - 8 * mask.length) := by
      have heq := List.range'_append 0 (8 * mask.length) (n - 8 * mask.length) 1
      simp only [Nat.one_mul, Nat.zero_add] at heq
      have hn : n - 8 * mask.length + 8 * mask.length = n := by omega
      rw [hn] at heq
      exact heq.symm
    rw [hsplit, List.filter_append]
    have h1 : (List.range' (8 * mask.length) (n - 8 * mask.length)).filter
        (fun i => byteBit mask i) = [] := by
      rw [List.filter_eq_nil_iff]
      intro a ha
      have := (List.mem_range'_1.mp ha).1
      simp [byteBit_ge mask a this]
    rw [h1, List.append_nil]
    apply List.filter_congr
    intro x hx
    have hx8 : x < 8 * mask.length := by
      have := List.mem_range'_1.mp hx
      omega
    have hxn : x < n := lt_of_lt_of_le hx8 h
    simp [hxn]

/-- C9: set mask bits at positions at or beyond `rows_to_add` are ignored by
every masked write call. The required offsets of a masked write are exactly
the set positions below `rows_to_add` (so no value is consumed for a higher
set bit), and two masks agreeing on their first `rows_to_add` bits make any
write call behave identically (only those bits are appended to the validity
bitmap). -/
theorem c9_mask_tail_ignored :
    (∀ (mask : List Nat) (n : Nat),
      set_position_iterator (some mask) n =
        (List.range n).filter (fun i => byteBit mask i)) ∧
    (∀ (w : Writer) (op : WriteOp) (m m2 : List Nat),
      (∀ i < w.to_insert, byteBit m i = byteBit m2 i) →
      applyOp w (op.setMask (some m)) = applyOp w (op.setMask (some m2))) := by
  refine ⟨setPos_some_eq, ?_⟩
  intro w op m m2 hagree
  have hsp : set_position_iterator (some m) w.to_insert =
      set_position_iterator (some m2) w.to_insert := by
    rw [setPos_some_eq, setPos_some_eq]
    exact List.filter_congr (fun x hx => hagree x (List.mem_range.mp hx))
  have hmb : maskBits m w.to_insert = maskBits m2 w.to_insert := by
    unfold maskBits
    exact List.map_congr_left (fun x hx => hagree x (List.mem_range.mp hx))
  have havm : ∀ c, append_valid_mask c (some m) w.to_insert =
      append_valid_mask c (some m2) w.to_insert := by
    intro c
    unfold append_valid_mask
    dsimp only
    rw [hmb]
  cases op with
  | wF64 name mask vs =>
    simp only [WriteOp.setMask, applyOp]
    unfold Writer.write_f64
    dsimp only
    rw [hsp]
    simp only [havm]
  | wI64 name mask vs =>
    simp only [WriteOp.setMask, applyOp]
    unfold Writer.write_i64
    dsimp only
    rw [hsp]
    simp only [havm]
  | wU64 name mask vs =>
    simp only [WriteOp.setMask, applyOp]
    unfold Writer.write_u64
    dsimp only
    rw [hsp]
    simp only [havm]
  | wBool name mask vs =>
    simp only [WriteOp.setMask, applyOp]
    unfold Writer.write_bool
    dsimp only
    rw [hsp]
    simp only [havm]
  | wStr name mask vs =>
    simp only [WriteOp.setMask, applyOp]
    unfold Writer.write_string
    dsimp only
    rw [hsp]
    simp only [havm]
  | wTag name mask vs =>
    simp only [WriteOp.setMask, applyOp]
    unfold Writer.write_tag
    dsimp only
    rw [hsp]
    simp only [havm]
  | wTagDict name mask ks vs =>
    simp only [WriteOp.setMask, applyOp]
    unfold Writer.write_tag_dict
    dsimp only
    rw [hsp]
    simp only [havm]
  | wTime name vs =>
    rfl

/-- C9 witness: masks `[3]` and `[7]` agree on their first two bits, so a
two-row int64 write behaves identically under either mask even though `[7]`
has a third bit set at offset 2. -/
theorem c9_witness :
    (∀ i < (Writer.new {} 2).to_insert, byteBit [3] i = byteBit [7] i) ∧
    applyOp (Writer.new {} 2) ((WriteOp.wI64 "a" none [5, 6]).setMask (some [3])) =
      applyOp (Writer.new {} 2) ((WriteOp.wI64 "a" none [5, 6]).setMask (some [7])) := by
  refine ⟨by decide, ?_⟩
  exact c9_mask_tail_ignored.2 (Writer.new {} 2) (.wI64 "a" none [5, 6]) [3] [7] (by decide)

/-! ## Claim C5: value-store growth of a successful write -/

/-- The length of a column value store. -/
def dataLen (c : Column) : Nat :=
  match c.data with
  | .f64 d _ => d.length
  | .i64 d _ => d.length
  | .u64 d _ => d.length
  | .string d _ => d.length
  | .bool d _ => d.length
  | .tag d _ _ => d.length

/-- Resizing yields exactly the requested length. -/
theorem listResize_length {α : Type} (l : List α) (n : Nat) (x : α) :
    (listResize l n x).length = n := by
  unfold listResize
  simp [List.length_take]
  omega

/-- Replacing a column in range is observable at its index. -/
theorem setColumn_getD_self (b : MutableBatch) (idx : Nat) (c : Column)
    (h : idx < b.columns.length) :
    (setColumn b idx c).columns.getD idx default = c := by
  simp [setColumn, List.getD_eq_getElem?_getD, List.getElem?_set, h]

/-- Appending validity bits does not touch the value store. -/
theorem append_valid_mask_data (c : Column) (m : Option (List Nat)) (n : Nat) :
    (append_valid_mask c m n).data = c.data := by
  cases m <;> rfl

/-- Appending validity bits does not touch the influx type. -/
theorem append_valid_mask_influx (c : Column) (m : Option (List Nat)) (n : Nat) :
    (append_valid_mask c m n).influx_type = c.influx_type := by
  cases m <;> rfl

/-- The store length is unchanged by a validity append. -/
theorem dataLen_append_valid (c : Column) (m : Option (List Nat)) (n : Nat) :
    dataLen (append_valid_mask c m n) = dataLen c := by
  unfold dataLen
  rw [append_valid_mask_data]

/-- The required offsets of any write are strictly increasing. -/
theorem setPos_pairwise (mask : Option (List Nat)) (n : Nat) :
    (set_position_iterator mask n).Pairwise (· < ·) := by
  cases mask with
  | none =>
    simp only [set_position_iterator]
    exact List.pairwise_lt_range n
  | some m =>
    unfold set_position_iterator iter_set_positions
    dsimp only
    exact List.Pairwise.sublist
      ((List.takeWhile_sublist _).trans (List.filter_sublist _))
      (List.pairwise_lt_range _)

/-- Invariant preservation along the dictionary-coded tag loop: the store is
only mutated by `set`, the dictionary only by `lookup_value_or_insert`. -/
theorem tagDictLoop_inv (ir : Nat) (P : List Int → List String → Prop)
    (hset : ∀ d dict p x, P d dict → P (d.set (ir + p) x) dict)
    (hdict : ∀ d dict v, P d dict → P d (lookup_value_or_insert dict v).2) :
    ∀ (ps ks : List Nat) (m : List (String × Option Int)) (d : List Int)
      (dict : List String) (st : StatValues String), P d dict →
      P (tagDictLoop ir ps ks m d dict st).1 (tagDictLoop ir ps ks m d dict st).2.1
  | [], _, _, _, _, _, h => h
  | _ :: _, [], _, _, _, _, h => h
  | p :: ps, k :: ks, m, d, dict, st, h => by
    unfold tagDictLoop
    rcases hk : m[k]? with _ | ⟨v, _ | did⟩
    · exact h
    · exact tagDictLoop_inv ir P hset hdict ps ks
        (m.set k (v, some (lookup_value_or_insert dict v).1)) _ _ _
        (hset _ _ _ _ (hdict _ _ _ h))
    · exact tagDictLoop_inv ir P hset hdict ps ks m _ _ _ (hset _ _ _ _ h)

/-- Final store length of the string write loop: one past the last required
offset (the store before each append never reaches past the slot being
filled, because offsets increase). -/
theorem stringLoop_len (ir : Nat) :
    ∀ (ps : List Nat) (vs : List String) (d : List String) (st : StatValues String),
      ps.length ≤ vs.length → ps.Pairwise (· < ·) →
      (∀ p ∈ ps, d.length ≤ ir + p) →
      ((writeLoop (stepString ir) ps vs (d, st)).1).1.length =
        (match ps.getLast? with
         | none => d.length
         | some p => ir + p + 1) := by
  intro ps
  induction ps with
  | nil => intro vs d st _ _ _; rfl
  | cons p ps ih =>
    intro vs d st hlen hpair hmem
    cases vs with
    | nil => simp at hlen
    | cons v vs =>
      have hdp : d.length ≤ ir + p := hmem p (List.mem_cons_self p ps)
      have hd1 : (stepString ir (d, st) p v).1.length = ir + p + 1 := by
        simp [stepString, List.length_append]
        omega
      show ((writeLoop (stepString ir) ps vs (stepString ir (d, st) p v)).1).1.length = _
      cases ps with
      | nil =>
        simpa [writeLoop] using hd1
      | cons p2 ps2 =>
        have hstep := ih vs ((stepString ir (d, st) p v).1) ((stepString ir (d, st) p v).2)
          (by simpa using hlen) (List.Pairwise.sublist (List.sublist_cons_self p _) hpair)
          (by
            intro q hq
            have hpq : p < q := (List.pairwise_cons.mp hpair).1 q hq
            rw [hd1]
            omega)
        rw [List.getLast?_cons_cons]
        exact hstep

/-- Write of `rows_to_add = 2` with mask `0b1` and one value into a fresh
string column, used to refute C5. -/
def c5_write : Writer × Outcome :=
  (Writer.new {} 2).write_string "s" (some [1]) ["a"]

/-- C5 counterexample: the masked string write succeeds but the string value
store holds one slot, not `initial_rows + rows_to_add = 2`: `write_string`
never materialises slots past the last value it appends. -/
theorem c5_counterexample :
    c5_write.2 = Outcome.ok ∧
      dataLen (c5_write.1.batch.columns.getD 0 default) ≠
        (Writer.new ({} : MutableBatch) 2).initial_rows +
          (Writer.new ({} : MutableBatch) 2).to_insert := by
  constructor
  · decide
  · decide

/-- C5 amended: a successful typed write leaves the value store at exactly
`initial_rows + rows_to_add` slots for the f64/i64/u64/bool/tag variants
(the boolean store provided it started at `initial_rows`), but the string
variant only ever grows to one slot past the last required offset (and not
at all when the mask selects no offsets). -/
theorem c5_amended :
    ∀ (op : WriteOp) (w : Writer) (b : MutableBatch) (idx : Nat),
      column_mut w.batch w.initial_rows op.opName op.opType = (b, .ok idx) →
      idx < b.columns.length →
      variantOk op (b.columns.getD idx default) →
      (match op with
       | .wBool _ _ _ => dataLen (b.columns.getD idx default) = w.initial_rows
       | .wStr _ _ _ => dataLen (b.columns.getD idx default) ≤ w.initial_rows
       | _ => True) →
      (applyOp w op).2 = .ok →
      dataLen ((applyOp w op).1.batch.columns.getD idx default) =
        (match op with
         | .wStr _ mask _ =>
           (match (set_position_iterator mask w.to_insert).getLast? with
            | none => dataLen (b.columns.getD idx default)
            | some p => w.initial_rows + p + 1)
         | _ => w.initial_rows + w.to_insert) := by
  intro op w b idx hcm hidx hvar hextra hsucc
  cases op with
  | wF64 name mask vs =>
    simp only [applyOp, WriteOp.opName, WriteOp.opType] at hcm ⊢
    unfold Writer.write_f64
    dsimp only
    rw [hcm]
    dsimp only
    rcases hcd : (b.columns.getD idx default).data with ⟨d, s⟩ | ⟨d, s⟩ | ⟨d, s⟩
      | ⟨d, s⟩ | ⟨d, s⟩ | ⟨d, dict, s⟩ <;>
      simp only [variantOk, hcd] at hvar
    dsimp only
    rcases hl : writeLoop (stepVal w.initial_rows) (set_position_iterator mask w.to_insert)
      vs (listResize d (w.initial_rows + w.to_insert) 0.0, StatValues.new_empty) with
      ⟨⟨d2, st2⟩, rem, flag⟩
    have hdl : d2.length = w.initial_rows + w.to_insert := by
      have hi := writeLoop_fst_inv (stepVal w.initial_rows)
        (fun s => s.1.length = w.initial_rows + w.to_insert)
        (fun s p v h => by simp [stepVal, List.length_set, h])
        (set_position_iterator mask w.to_insert) vs
        (listResize d (w.initial_rows + w.to_insert) 0.0, StatValues.new_empty)
        (listResize_length d (w.initial_rows + w.to_insert) 0.0)
      rw [hl] at hi
      exact hi
    cases flag
    · dsimp only
      rw [setColumn_getD_self b idx _ hidx]
      simp [dataLen, hdl]
    · dsimp only
      rw [setColumn_getD_self b idx _ hidx, dataLen_append_valid]
      simp [dataLen, hdl]
  | wI64 name mask vs =>
    simp only [applyOp, WriteOp.opName, WriteOp.opType] at hcm ⊢
    unfold Writer.write_i64
    dsimp only
    rw [hcm]
    dsimp only
    rcases hcd : (b.columns.getD idx default).data with ⟨d, s⟩ | ⟨d, s⟩ | ⟨d, s⟩
      | ⟨d, s⟩ | ⟨d, s⟩ | ⟨d, dict, s⟩ <;>
      simp only [variantOk, hcd] at hvar
    dsimp only
    rcases hl : writeLoop (stepVal w.initial_rows) (set_position_iterator mask w.to_insert)
      vs (listResize d (w.initial_rows + w.to_insert) 0, StatValues.new_empty) with
      ⟨⟨d2, st2⟩, rem, flag⟩
    have hdl : d2.length = w.initial_rows + w.to_insert := by
      have hi := writeLoop_fst_inv (stepVal w.initial_rows)
        (fun s => s.1.length = w.initial_rows + w.to_insert)
        (fun s p v h => by simp [stepVal, List.length_set, h])
        (set_position_iterator mask w.to_insert) vs
        (listResize d (w.initial_rows + w.to_insert) 0, StatValues.new_empty)
        (listResize_length d (w.initial_rows + w.to_insert) 0)
      rw [hl] at hi
      exact hi
    cases flag
    · dsimp only
      rw [setColumn_getD_self b idx _ hidx]
      simp [dataLen, hdl]
    · dsimp only
      rw [setColumn_getD_self b idx _ hidx, dataLen_append_valid]
      simp [dataLen, hdl]
  | wU64 name mask vs =>
    simp only [applyOp, WriteOp.opName, WriteOp.opType] at hcm ⊢
    unfold Writer.write_u64
    dsimp only
    rw [hcm]
    dsimp only
    rcases hcd : (b.columns.getD idx default).data with ⟨d, s⟩ | ⟨d, s⟩ | ⟨d, s⟩
      | ⟨d, s⟩ | ⟨d, s⟩ | ⟨d, dict, s⟩ <;>
      simp only [variantOk, hcd] at hvar
    dsimp only
    rcases hl : writeLoop (stepVal w.initial_rows) (set_position_iterator mask w.to_insert)
      vs (listResize d (w.initial_rows + w.to_insert) 0, StatValues.new_empty) with
      ⟨⟨d2, st2⟩, rem, flag⟩
    have hdl : d2.length = w.initial_rows + w.to_insert := by
      have hi := writeLoop_fst_inv (stepVal w.initial_rows)
        (fun s => s.1.length = w.initial_rows + w.to_insert)
        (fun s p v h => by simp [stepVal, List.length_set, h])
        (set_position_iterator mask w.to_insert) vs
        (listResize d (w.initial_rows + w.to_insert) 0, StatValues.new_empty)
        (listResize_length d (w.initial_rows + w.to_insert) 0)
      rw [hl] at hi
      exact hi
    cases flag
    · dsimp only
      rw [setColumn_getD_self b idx _ hidx]
      simp [dataLen, hdl]
    · dsimp only
      rw [setColumn_getD_self b idx _ hidx, dataLen_append_valid]
      simp [dataLen, hdl]
  | wBool name mask vs =>
    simp only [applyOp, WriteOp.opName, WriteOp.opType] at hcm ⊢
    unfold Writer.write_bool
    dsimp only
    rw [hcm]
    dsimp only
    rcases hcd : (b.columns.getD idx default).data with ⟨d, s⟩ | ⟨d, s⟩ | ⟨d, s⟩
      | ⟨d, s⟩ | ⟨d, s⟩ | ⟨d, dict, s⟩ <;>
      simp only [variantOk, hcd] at hvar
    dsimp only
    have hdb : d.length = w.initial_rows := by
      have : dataLen (b.columns.getD idx default) = d.length := by
        unfold dataLen
        rw [hcd]
      rw [← this]
      exact hextra
    rcases hl : writeLoop (stepBool w.initial_rows) (set_position_iterator mask w.to_insert)
      vs (d ++ List.replicate w.to_insert false, StatValues.new_empty) with
      ⟨⟨d2, st2⟩, rem, flag⟩
    have hdl : d2.length = w.initial_rows + w.to_insert := by
      have hi := writeLoop_fst_inv (stepBool w.initial_rows)
        (fun s => s.1.length = w.initial_rows + w.to_insert)
        (fun s p v h => by
          cases v <;> simp [stepBool, List.length_set, h])
        (set_position_iterator mask w.to_insert) vs
        (d ++ List.replicate w.to_insert false, StatValues.new_empty)
        (by simp [List.length_append, hdb])
      rw [hl] at hi
      exact hi
    cases flag
    · dsimp only
      rw [setColumn_getD_self b idx _ hidx]
      simp [dataLen, hdl]
    · dsimp only
      rw [setColumn_getD_self b idx _ hidx, dataLen_append_valid]
      simp [dataLen, hdl]
  | wStr name mask vs =>
    simp only [applyOp, WriteOp.opName, WriteOp.opType] at hcm hsucc ⊢
    unfold Writer.write_string at hsucc ⊢
    dsimp only at hsucc ⊢
    rw [hcm] at hsucc ⊢
    dsimp only at hsucc ⊢
    rcases hcd : (b.columns.getD idx default).data with ⟨d, s⟩ | ⟨d, s⟩ | ⟨d, s⟩
      | ⟨d, s⟩ | ⟨d, s⟩ | ⟨d, dict, s⟩ <;>
      simp only [variantOk, hcd] at hvar
    rw [hcd] at hsucc
    dsimp only at hsucc ⊢
    have hdL : dataLen (b.columns.getD idx default) = d.length := by
      unfold dataLen
      rw [hcd]
    have hdb : d.length ≤ w.initial_rows := by
      rw [← hdL]
      exact hextra
    rcases hl : writeLoop (stepString w.initial_rows) (set_position_iterator mask w.to_insert)
      vs (d, StatValues.new_empty) with ⟨⟨d2, st2⟩, rem, flag⟩
    rw [hl] at hsucc
    cases flag
    · exact absurd hsucc (by simp)
    · have hle : (set_position_iterator mask w.to_insert).length ≤ vs.length := by
        by_contra hlt
        push_neg at hlt
        have hff := writeLoop_flag_false (stepString w.initial_rows)
          (set_position_iterator mask w.to_insert) vs (d, StatValues.new_empty) hlt
        rw [hl] at hff
        simp at hff
      have hlen2 := stringLoop_len w.initial_rows (set_position_iterator mask w.to_insert)
        vs d StatValues.new_empty hle (setPos_pairwise mask w.to_insert)
        (fun p _ => le_trans hdb (Nat.le_add_right _ _))
      rw [hl] at hlen2
      dsimp only
      rw [setColumn_getD_self b idx _ hidx, dataLen_append_valid]
      rw [hdL]
      simpa [dataLen] using hlen2
  | wTag name mask vs =>
    simp only [applyOp, WriteOp.opName, WriteOp.opType] at hcm ⊢
    unfold Writer.write_tag
    dsimp only
    rw [hcm]
    dsimp only
    rcases hcd : (b.columns.getD idx default).data with ⟨d, s⟩ | ⟨d, s⟩ | ⟨d, s⟩
      | ⟨d, s⟩ | ⟨d, s⟩ | ⟨d, dict, s⟩ <;>
      simp only [variantOk, hcd] at hvar
    dsimp only
    rcases hl : writeLoop (stepTag w.initial_rows) (set_position_iterator mask w.to_insert)
      vs (listResize d (w.initial_rows + w.to_insert) INVALID_DID, dict,
        StatValues.new_empty) with ⟨⟨d2, dict2, st2⟩, rem, flag⟩
    have hdl : d2.length = w.initial_rows + w.to_insert := by
      have hi := writeLoop_fst_inv (stepTag w.initial_rows)
        (fun s => s.1.length = w.initial_rows + w.to_insert)
        (fun s p v h => by simp [stepTag, List.length_set, h])
        (set_position_iterator mask w.to_insert) vs
        (listResize d (w.initial_rows + w.to_insert) INVALID_DID, dict,
          StatValues.new_empty)
        (listResize_length d (w.initial_rows + w.to_insert) INVALID_DID)
      rw [hl] at hi
      exact hi
    cases flag
    · dsimp only
      rw [setColumn_getD_self b idx _ hidx]
      simp [dataLen, hdl]
    · dsimp only
      rw [setColumn_getD_self b idx _ hidx, dataLen_append_valid]
      simp [dataLen, hdl]
  | wTagDict name mask ks vs =>
    simp only [applyOp, WriteOp.opName, WriteOp.opType] at hcm ⊢
    unfold Writer.write_tag_dict
    dsimp only
    rw [hcm]
    dsimp only
    rcases hcd : (b.columns.getD idx default).data with ⟨d, s⟩ | ⟨d, s⟩ | ⟨d, s⟩
      | ⟨d, s⟩ | ⟨d, s⟩ | ⟨d, dict, s⟩ <;>
      simp only [variantOk, hcd] at hvar
    dsimp only
    rcases hl : tagDictLoop w.initial_rows (set_position_iterator mask w.to_insert) ks
      (List.map (fun v => (v, none)) vs)
      (listResize d (w.initial_rows + w.to_insert) INVALID_DID) dict
      StatValues.new_empty with ⟨d2, dict2, m2, st2, res⟩
    have hdl : d2.length = w.initial_rows + w.to_insert := by
      have hi := tagDictLoop_inv w.initial_rows
        (fun d _ => d.length = w.initial_rows + w.to_insert)
        (fun d dict p x h => by simp [List.length_set, h])
        (fun d dict v h => h)
        (set_position_iterator mask w.to_insert) ks
        (List.map (fun v => (v, none)) vs)
        (listResize d (w.initial_rows + w.to_insert) INVALID_DID) dict
        StatValues.new_empty
        (listResize_length d (w.initial_rows + w.to_insert) INVALID_DID)
      rw [hl] at hi
      exact hi
    cases res
    · dsimp only
      rw [setColumn_getD_self b idx _ hidx, dataLen_append_valid]
      simp [dataLen, hdl]
    · dsimp only
      rw [setColumn_getD_self b idx _ hidx]
      simp [dataLen, hdl]
    · dsimp only
      rw [setColumn_getD_self b idx _ hidx]
      simp [dataLen, hdl]
  | wTime name vs =>
    simp only [applyOp, WriteOp.opName, WriteOp.opType] at hcm ⊢
    unfold Writer.write_time
    dsimp only
    rw [hcm]
    dsimp only
    rcases hcd : (b.columns.getD idx default).data with ⟨d, s⟩ | ⟨d, s⟩ | ⟨d, s⟩
      | ⟨d, s⟩ | ⟨d, s⟩ | ⟨d, dict, s⟩ <;>
      simp only [variantOk, hcd] at hvar
    dsimp only
    rcases hl : writeLoop (stepVal w.initial_rows) (List.range w.to_insert)
      vs (listResize d (w.initial_rows + w.to_insert) 0, StatValues.new_empty) with
      ⟨⟨d2, st2⟩, rem, flag⟩
    have hdl : d2.length = w.initial_rows + w.to_insert := by
      have hi := writeLoop_fst_inv (stepVal w.initial_rows)
        (fun s => s.1.length = w.initial_rows + w.to_insert)
        (fun s p v h => by simp [stepVal, List.length_set, h])
        (List.range w.to_insert) vs
        (listResize d (w.initial_rows + w.to_insert) 0, StatValues.new_empty)
        (listResize_length d (w.initial_rows + w.to_insert) 0)
      rw [hl] at hi
      exact hi
    cases flag
    · dsimp only
      rw [setColumn_getD_self b idx _ hidx]
      simp [dataLen, hdl]
    · dsimp only
      rw [setColumn_getD_self b idx _ hidx, dataLen_append_valid]
      simp [dataLen, hdl]

/-- C5 witness for the amended claim: the two-row masked string write of
`c5_write` resolves column 0 and ends with a one-slot store, matching
`initial_rows + (last offset) + 1 = 0 + 0 + 1`. -/
theorem c5_witness :
    column_mut (Writer.new {} 2).batch (Writer.new {} 2).initial_rows
      (WriteOp.wStr "s" (some [1]) ["a"]).opName (WriteOp.wStr "s" (some [1]) ["a"]).opType =
      ((column_mut (Writer.new ({} : MutableBatch) 2).batch 0 "s" (.field .string)).1, .ok 0) ∧
    0 < (column_mut (Writer.new ({} : MutableBatch) 2).batch 0 "s"
      (.field .string)).1.columns.length ∧
    (applyOp (Writer.new {} 2) (.wStr "s" (some [1]) ["a"])).2 = .ok ∧
    dataLen ((applyOp (Writer.new {} 2)
        (.wStr "s" (some [1]) ["a"])).1.batch.columns.getD 0 default) =
      (Writer.new ({} : MutableBatch) 2).initial_rows + 0 + 1 := by
  refine ⟨rfl, by decide, by decide, ?_⟩
  have h := c5_amended (.wStr "s" (some [1]) ["a"]) (Writer.new {} 2)
    (column_mut (Writer.new ({} : MutableBatch) 2).batch 0 "s" (.field .string)).1 0
    rfl (by decide) trivial (by decide) (by decide)
  simpa using h

/-! ## Claims C2 and C8: commit -/

/-- The validity bitmap after null padding. -/
theorem push_nulls_valid (c : Column) (len : Nat) :
    (c.push_nulls_to_len len).valid =
      c.valid ++ List.replicate (len - c.valid.length) false := rfl

/-- The statistics merge of commit does not touch the validity bitmap. -/
theorem mergeArm_valid : ∀ (col : Column) (s : Statistics) (col2 : Column),
    mergeArm col s = some col2 → col2.valid = col.valid := by
  intro col s col2 h
  obtain ⟨t, cvalid, cdata⟩ := col
  cases cdata <;> cases s <;>
    simp only [mergeArm, Option.some.injEq, reduceCtorEq] at h <;>
    (subst h; rfl)

/-- The statistics merge of a tag column recomputes its distinct count from
the dictionary size, plus one when the merged null count is nonzero. -/
theorem mergeArm_tag : ∀ (col : Column) (s : Statistics) (col2 : Column),
    mergeArm col s = some col2 →
    ∀ (d : List Int) (dict : List String) (cs : StatValues String),
      col2.data = .tag d dict cs →
      cs.distinct_count =
        (if cs.null_count = 0 then nonZeroNew dict.length
         else nonZeroNew (dict.length + 1)) := by
  intro col s col2 h d dict cs hdata
  unfold mergeArm at h
  split at h
  all_goals
    first
      | exact Option.noConfusion h
      | (injection h with h2; subst h2;
         first
           | (injection hdata with h1 hb hc; subst h1; subst hb; subst hc; rfl)
           | exact absurd hdata (by simp))

/-- What a successful `commitCols` walk guarantees about each column: its
validity bitmap reaches `initial + n` bits, and a column untouched by the
transaction got exactly `n` appended null bits. -/
theorem commitCols_some (initial n : Nat) :
    ∀ (cols : List Column) (idx : Nat) (stats : List (Nat × Statistics))
      (cols2 : List Column),
      commitCols initial (initial + n) cols idx stats = some cols2 →
      cols2.length = cols.length ∧
      ∀ j, j < cols.length →
        ((cols2.getD j default).valid.length = initial + n ∧
         ((cols.getD j default).valid.length = initial →
           (cols2.getD j default).valid =
             (cols.getD j default).valid ++ List.replicate n false)) := by
  intro cols
  induction cols with
  | nil =>
    intro idx stats cols2 h
    simp only [commitCols, Option.some.injEq] at h
    subst h
    refine ⟨rfl, ?_⟩
    intro j hj
    simp at hj
  | cons col rest ih =>
    intro idx stats cols2 h
    unfold commitCols at h
    by_cases h1 : col.valid.length = initial
    · rw [if_pos h1] at h
      rcases hrec : commitCols initial (initial + n) rest (idx + 1) stats with _ | cols2'
      · rw [hrec] at h; exact Option.noConfusion h
      · rw [hrec] at h
        simp only [Option.map_some', Option.some.injEq] at h
        subst h
        obtain ⟨hlen, hcols⟩ := ih (idx + 1) stats cols2' hrec
        refine ⟨by simp [hlen], ?_⟩
        intro j hj
        cases j with
        | zero =>
          constructor
          · show (col.push_nulls_to_len (initial + n)).valid.length = initial + n
            rw [push_nulls_valid]
            simp [List.length_append, h1]
          · intro _
            show (col.push_nulls_to_len (initial + n)).valid = _
            rw [push_nulls_valid, h1]
            congr 1
            congr 1
            omega
        | succ j =>
          simpa using hcols j (by simpa using hj)
    · rw [if_neg h1] at h
      by_cases h2 : col.valid.length ≠ initial + n
      · rw [if_pos h2] at h; exact Option.noConfusion h
      · rw [if_neg h2] at h
        push_neg at h2
        rcases stats with _ | ⟨⟨sidx, s⟩, stail⟩
        · exact Option.noConfusion h
        · dsimp only at h
          by_cases h3 : sidx ≠ idx
          · rw [if_pos h3] at h; exact Option.noConfusion h
          · rw [if_neg h3] at h
            rcases hma : mergeArm col s with _ | col2'
            · rw [hma] at h; exact Option.noConfusion h
            · rw [hma] at h
              rcases hrec : commitCols initial (initial + n) rest (idx + 1) stail
                with _ | cols2''
              · rw [hrec] at h; exact Option.noConfusion h
              · rw [hrec] at h
                simp only [Option.map_some', Option.some.injEq] at h
                subst h
                obtain ⟨hlen, hcols⟩ := ih (idx + 1) stail cols2'' hrec
                refine ⟨by simp [hlen], ?_⟩
                intro j hj
                cases j with
                | zero =>
                  constructor
                  · show col2'.valid.length = initial + n
                    rw [mergeArm_valid col s col2' hma]
                    exact h2
                  · intro hcontra
                    exact absurd hcontra h1
                | succ j =>
                  simpa using hcols j (by simpa using hj)

/-- C2: after a commit that returns, the batch row count equals
`initial_rows + rows_to_add`, every column has a validity bitmap of exactly
that length, and every column left at `initial_rows` by the transaction was
padded with `rows_to_add` null entries; hence the batch invariant (validity
length equals row count for every column) holds again. -/
theorem c2_commit_uniform :
    ∀ (w : Writer) (b2 : MutableBatch), w.commit = some b2 →
      b2.row_count = w.initial_rows + w.to_insert ∧
      b2.columns.length = w.batch.columns.length ∧
      ∀ j, j < w.batch.columns.length →
        ((b2.columns.getD j default).valid.length = b2.row_count ∧
         ((w.batch.columns.getD j default).valid.length = w.initial_rows →
           (b2.columns.getD j default).valid =
             (w.batch.columns.getD j default).valid ++
               List.replicate w.to_insert false)) := by
  intro w b2 h
  unfold Writer.commit at h
  dsimp only at h
  rcases hcc : commitCols w.initial_rows (w.initial_rows + w.to_insert)
    w.batch.columns 0 (sortStats w.statistics) with _ | cols2
  · rw [hcc] at h; exact Option.noConfusion h
  · rw [hcc] at h
    simp only [Option.some.injEq] at h
    subst h
    obtain ⟨hlen, hcols⟩ :=
      commitCols_some w.initial_rows w.to_insert w.batch.columns 0
        (sortStats w.statistics) cols2 hcc
    exact ⟨rfl, hlen, hcols⟩

/-- Writer over an empty batch with one successful dense int64 write, used to
witness C2. -/
def c2_writer : Writer := ((Writer.new {} 1).write_i64 "a" none [5]).1

/-- The batch committed by `c2_writer`. -/
def c2_batch : MutableBatch := (c2_writer.commit).getD {}

/-- C2 witness: the one-column commit returns, the row count is
`0 + 1` and the single column ends with a one-bit validity bitmap. -/
theorem c2_witness :
    c2_writer.commit = some c2_batch ∧
    (c2_batch.row_count = c2_writer.initial_rows + c2_writer.to_insert ∧
      c2_batch.columns.length = c2_writer.batch.columns.length ∧
      ∀ j, j < c2_writer.batch.columns.length →
        ((c2_batch.columns.getD j default).valid.length = c2_batch.row_count ∧
         ((c2_writer.batch.columns.getD j default).valid.length = c2_writer.initial_rows →
           (c2_batch.columns.getD j default).valid =
             (c2_writer.batch.columns.getD j default).valid ++
               List.replicate c2_writer.to_insert false))) := by
  refine ⟨rfl, ?_⟩
  exact c2_commit_uniform c2_writer c2_batch rfl

/-- The `commitCols` walk sets the distinct count of every touched tag column
from its dictionary size. -/
theorem commitCols_tag (initial final : Nat) :
    ∀ (cols : List Column) (idx : Nat) (stats : List (Nat × Statistics))
      (cols2 : List Column),
      commitCols initial final cols idx stats = some cols2 →
      ∀ j, j < cols.length → (cols.getD j default).valid.length ≠ initial →
      ∀ (d : List Int) (dict : List String) (cs : StatValues String),
        (cols2.getD j default).data = .tag d dict cs →
        cs.distinct_count =
          (if cs.null_count = 0 then nonZeroNew dict.length
           else nonZeroNew (dict.length + 1)) := by
  intro cols
  induction cols with
  | nil =>
    intro idx stats cols2 h j hj
    simp at hj
  | cons col rest ih =>
    intro idx stats cols2 h j hj huntouched d dict cs hdata
    unfold commitCols at h
    by_cases h1 : col.valid.length = initial
    · rw [if_pos h1] at h
      rcases hrec : commitCols initial final rest (idx + 1) stats with _ | cols2'
      · rw [hrec] at h; exact Option.noConfusion h
      · rw [hrec] at h
        simp only [Option.map_some', Option.some.injEq] at h
        subst h
        cases j with
        | zero => exact absurd h1 huntouched
        | succ j =>
          exact ih (idx + 1) stats cols2' hrec j (by simpa using hj)
            (by simpa using huntouched) d dict cs (by simpa using hdata)
    · rw [if_neg h1] at h
      by_cases h2 : col.valid.length ≠ final
      · rw [if_pos h2] at h; exact Option.noConfusion h
      · rw [if_neg h2] at h
        rcases stats with _ | ⟨⟨sidx, s⟩, stail⟩
        · exact Option.noConfusion h
        · dsimp only at h
          by_cases h3 : sidx ≠ idx
          · rw [if_pos h3] at h; exact Option.noConfusion h
          · rw [if_neg h3] at h
            rcases hma : mergeArm col s with _ | col2'
            · rw [hma] at h; exact Option.noConfusion h
            · rw [hma] at h
              rcases hrec : commitCols initial final rest (idx + 1) stail with _ | cols2''
              · rw [hrec] at h; exact Option.noConfusion h
              · rw [hrec] at h
                simp only [Option.map_some', Option.some.injEq] at h
                subst h
                cases j with
                | zero =>
                  exact mergeArm_tag col s col2' hma d dict cs (by simpa using hdata)
                | succ j =>
                  exact ih (idx + 1) stail cols2'' hrec j (by simpa using hj)
                    (by simpa using huntouched) d dict cs (by simpa using hdata)

/-- C8: at commit, every tag column written this transaction (its validity
length moved off `initial_rows`) ends with cumulative distinct_count equal to
the size of its dictionary, plus one when the merged null count is nonzero
(`NonZeroU64::new` encoding zero as `none`). -/
theorem c8_tag_distinct :
    ∀ (w : Writer) (b2 : MutableBatch), w.commit = some b2 →
      ∀ j, j < w.batch.columns.length →
        (w.batch.columns.getD j default).valid.length ≠ w.initial_rows →
        ∀ (d : List Int) (dict : List String) (cs : StatValues String),
          (b2.columns.getD j default).data = .tag d dict cs →
          cs.distinct_count =
            (if cs.null_count = 0 then nonZeroNew dict.length
             else nonZeroNew (dict.length + 1)) := by
  intro w b2 h
  unfold Writer.commit at h
  dsimp only at h
  rcases hcc : commitCols w.initial_rows (w.initial_rows + w.to_insert)
    w.batch.columns 0 (sortStats w.statistics) with _ | cols2
  · rw [hcc] at h; exact Option.noConfusion h
  · rw [hcc] at h
    simp only [Option.some.injEq] at h
    subst h
    exact commitCols_tag w.initial_rows (w.initial_rows + w.to_insert)
      w.batch.columns 0 (sortStats w.statistics) cols2 hcc

/-- Writer over an empty batch with one masked two-row tag write (one value
`x`, one null), used to witness C8. -/
def c8_writer : Writer := ((Writer.new {} 2).write_tag "t" (some [1]) ["x"]).1

/-- The batch committed by `c8_writer`. -/
def c8_batch : MutableBatch := (c8_writer.commit).getD {}

/-- The parts of a tag column storage. -/
def tagOf (c : Column) : List Int × List String × StatValues String :=
  match c.data with
  | .tag d dict s => (d, dict, s)
  | _ => ([], [], {})

/-- C8 witness: the committed tag column has dictionary `[x]`, merged null
count 1, and distinct count `some 2` = dictionary size plus one. -/
theorem c8_witness :
    c8_writer.commit = some c8_batch ∧
    0 < c8_writer.batch.columns.length ∧
    (c8_writer.batch.columns.getD 0 default).valid.length ≠ c8_writer.initial_rows ∧
    (c8_batch.columns.getD 0 default).data =
      .tag (tagOf (c8_batch.columns.getD 0 default)).1
        (tagOf (c8_batch.columns.getD 0 default)).2.1
        (tagOf (c8_batch.columns.getD 0 default)).2.2 ∧
    (tagOf (c8_batch.columns.getD 0 default)).2.2.distinct_count =
      (if (tagOf (c8_batch.columns.getD 0 default)).2.2.null_count = 0 then
        nonZeroNew (tagOf (c8_batch.columns.getD 0 default)).2.1.length
       else nonZeroNew ((tagOf (c8_batch.columns.getD 0 default)).2.1.length + 1)) ∧
    (tagOf (c8_batch.columns.getD 0 default)).2.2.distinct_count = some 2 := by
  refine ⟨rfl, by decide, by decide, rfl, ?_, by decide⟩
  exact c8_tag_distinct c8_writer c8_batch rfl 0 (by decide) (by decide)
    (tagOf (c8_batch.columns.getD 0 default)).1
    (tagOf (c8_batch.columns.getD 0 default)).2.1
    (tagOf (c8_batch.columns.getD 0 default)).2.2 rfl

/-! ## Claim C6: lazy dictionary resolution of `write_tag_dict` -/

/-- A local-table entry that a key would still have to resolve through the
shared dictionary. -/
def unresolved (m : List (String × Option Int)) (k : Nat) : Bool :=
  match m[k]? with
  | some (_, none) => true
  | _ => false

/-- Lookup-or-insert grows the dictionary by at most one entry. -/
theorem lookup_len_le (dict : List String) (v : String) :
    (lookup_value_or_insert dict v).2.length ≤ dict.length + 1 := by
  unfold lookup_value_or_insert
  cases h : dict.findIdx? (· == v) <;> simp

/-- Dictionary growth of the dictionary-coded loop is bounded by the number
of distinct consumed keys that were still unresolved in the local table. -/
theorem tagDictLoop_growth (ir : Nat) :
    ∀ (ps ks : List Nat) (m : List (String × Option Int)) (d : List Int)
      (dict : List String) (st : StatValues String),
      (tagDictLoop ir ps ks m d dict st).2.1.length ≤
        dict.length + ks.dedup.countP (fun k => unresolved m k) := by
  intro ps
  induction ps with
  | nil => intro ks m d dict st; exact Nat.le_add_right _ _
  | cons p ps ih =>
    intro ks m d dict st
    cases ks with
    | nil => exact Nat.le_add_right _ _
    | cons k ks =>
      show (tagDictLoop ir (p :: ps) (k :: ks) m d dict st).2.1.length ≤ _
      unfold tagDictLoop
      rcases hk : m[k]? with _ | ⟨v, _ | did⟩ <;> dsimp only
      · exact Nat.le_add_right _ _
      · -- unresolved entry: resolve once, cache it
        have hklt : k < m.length := (List.getElem?_eq_some.mp hk).1
        have hrec := ih ks (m.set k (v, some (lookup_value_or_insert dict v).1))
          (d.set (ir + p) (lookup_value_or_insert dict v).1)
          (lookup_value_or_insert dict v).2 (st.update v)
        refine le_trans hrec ?_
        have hd2 := lookup_len_le dict v
        have hm2k : unresolved (m.set k (v, some (lookup_value_or_insert dict v).1)) k
            = false := by
          unfold unresolved
          rw [List.getElem?_set_self hklt]
        have hk_unres : unresolved m k = true := by
          unfold unresolved
          rw [hk]
        have hmono : ∀ j, j ≠ k →
            unresolved (m.set k (v, some (lookup_value_or_insert dict v).1)) j =
              unresolved m j := by
          intro j hjk
          unfold unresolved
          rw [List.getElem?_set_ne (fun hh => hjk hh.symm)]
        by_cases hmem : k ∈ ks
        · rw [List.dedup_cons_of_mem hmem]
          have hkd : k ∈ ks.dedup := List.mem_dedup.mpr hmem
          obtain ⟨l1, l2, hsplit⟩ := List.append_of_mem hkd
          rw [hsplit, List.countP_append, List.countP_append, List.countP_cons,
            List.countP_cons, hm2k, hk_unres]
          have hb1 : l1.countP
              (fun j => unresolved (m.set k (v, some (lookup_value_or_insert dict v).1)) j) ≤
              l1.countP (fun j => unresolved m j) := by
            apply List.countP_mono_left
            intro x _ hx
            by_cases hxk : x = k
            · subst hxk
              rw [hm2k] at hx
              exact absurd hx (by simp)
            · rw [← hmono x hxk]
              exact hx
          have hb2 : l2.countP
              (fun j => unresolved (m.set k (v, some (lookup_value_or_insert dict v).1)) j) ≤
              l2.countP (fun j => unresolved m j) := by
            apply List.countP_mono_left
            intro x _ hx
            by_cases hxk : x = k
            · subst hxk
              rw [hm2k] at hx
              exact absurd hx (by simp)
            · rw [← hmono x hxk]
              exact hx
          simp only [Bool.false_eq_true, if_false, if_pos]
          omega
        · rw [List.dedup_cons_of_not_mem hmem, List.countP_cons, hk_unres]
          have hmono2 : ks.dedup.countP
              (fun j => unresolved (m.set k (v, some (lookup_value_or_insert dict v).1)) j) ≤
              ks.dedup.countP (fun j => unresolved m j) := by
            apply List.countP_mono_left
            intro x hx hxu
            have hxk : x ≠ k := by
              intro hh
              subst hh
              exact hmem (List.mem_dedup.mp hx)
            rw [← hmono x hxk]
            exact hxu
          simp only [if_pos]
          omega
      · -- cached entry: no dictionary access
        have hrec := ih ks m (d.set (ir + p) did) dict (st.update v)
        refine le_trans hrec (Nat.add_le_add_left ?_ _)
        by_cases hmem : k ∈ ks
        · rw [List.dedup_cons_of_mem hmem]
        · rw [List.dedup_cons_of_not_mem hmem, List.countP_cons]
          omega

/-- The dictionary-coded loop never looks past the first `positions.length`
keys. -/
theorem tagDictLoop_take (ir : Nat) :
    ∀ (ps ks : List Nat) (m : List (String × Option Int)) (d : List Int)
      (dict : List String) (st : StatValues String),
      tagDictLoop ir ps ks m d dict st =
        tagDictLoop ir ps (ks.take ps.length) m d dict st
  | [], _, _, _, _, _ => rfl
  | _ :: _, [], _, _, _, _ => rfl
  | p :: ps, k :: ks, m, d, dict, st => by
    show _ = tagDictLoop ir (p :: ps) (k :: ks.take ps.length) m d dict st
    unfold tagDictLoop
    rcases hk : m[k]? with _ | ⟨v, _ | did⟩ <;> dsimp only
    · exact tagDictLoop_take ir ps ks _ _ _ _
    · exact tagDictLoop_take ir ps ks _ _ _ _

/-- C6: one `write_tag_dict` call inserts at most one dictionary entry per
distinct local index among the keys it actually consumes (the first
`required` keys); unreferenced local-table entries cause no insertion, so the
dictionary grows by at most the number of distinct consumed keys. -/
theorem c6_dict_lazy :
    ∀ (w : Writer) (name : String) (mask : Option (List Nat)) (keys : List Nat)
      (values : List String) (b : MutableBatch) (idx : Nat)
      (d : List Int) (dict : List String) (cs : StatValues String),
      column_mut w.batch w.initial_rows name .tag = (b, .ok idx) →
      idx < b.columns.length →
      (b.columns.getD idx default).data = .tag d dict cs →
      ∀ (d2 : List Int) (dict2 : List String) (cs2 : StatValues String),
        ((w.write_tag_dict name mask keys values).1.batch.columns.getD idx default).data =
          .tag d2 dict2 cs2 →
        dict2.length ≤ dict.length +
          ((keys.take (set_position_iterator mask w.to_insert).length).dedup).length := by
  intro w name mask keys values b idx d dict cs hcm hidx hcd d2 dict2 cs2 hdata
  unfold Writer.write_tag_dict at hdata
  dsimp only at hdata
  rw [hcm] at hdata
  dsimp only at hdata
  rw [hcd] at hdata
  dsimp only at hdata
  have htake := tagDictLoop_take w.initial_rows (set_position_iterator mask w.to_insert)
    keys (List.map (fun v => (v, none)) values)
    (listResize d (w.initial_rows + w.to_insert) INVALID_DID) dict StatValues.new_empty
  have hg := tagDictLoop_growth w.initial_rows (set_position_iterator mask w.to_insert)
    (keys.take (set_position_iterator mask w.to_insert).length)
    (List.map (fun v => (v, none)) values)
    (listResize d (w.initial_rows + w.to_insert) INVALID_DID) dict StatValues.new_empty
  rw [← htake] at hg
  have hgl : (tagDictLoop w.initial_rows (set_position_iterator mask w.to_insert) keys
      (List.map (fun v => (v, none)) values)
      (listResize d (w.initial_rows + w.to_insert) INVALID_DID) dict
      StatValues.new_empty).2.1.length ≤
      dict.length +
        ((keys.take (set_position_iterator mask w.to_insert).length).dedup).length :=
    le_trans hg (Nat.add_le_add_left (List.countP_le_length _) _)
  rcases hl : tagDictLoop w.initial_rows (set_position_iterator mask w.to_insert) keys
    (List.map (fun v => (v, none)) values)
    (listResize d (w.initial_rows + w.to_insert) INVALID_DID) dict
    StatValues.new_empty with ⟨dd, dct, mm, stt, res⟩
  rw [hl] at hdata hgl
  cases res <;> dsimp only at hdata hgl <;>
    rw [setColumn_getD_self b idx _ hidx] at hdata
  · rw [append_valid_mask_data] at hdata
    dsimp only at hdata
    injection hdata with h1 h2 h3
    subst h2
    exact hgl
  · dsimp only at hdata
    injection hdata with h1 h2 h3
    subst h2
    exact hgl
  · dsimp only at hdata
    injection hdata with h1 h2 h3
    subst h2
    exact hgl

/-- Fresh tag-column batch used to witness C6. -/
def c6_batch : MutableBatch := (column_mut (MutableBatch.mk [] [] 0) 0 "t" .tag).1

/-- The dictionary-coded write of the C6 witness: a ten-entry local table but
keys referencing only the two indices 0 and 1. -/
def c6_write : Writer × Outcome :=
  (Writer.new {} 3).write_tag_dict "t" none [0, 1, 0]
    ["a", "b", "c", "d", "e", "f", "g", "h", "i", "j"]

/-- C6 witness: a `write_tag_dict` with a ten-entry table whose keys
reference just two distinct indices inserts exactly two entries into the
dictionary, within the proven bound. -/
theorem c6_witness :
    column_mut (Writer.new {} 3).batch (Writer.new {} 3).initial_rows "t" .tag =
      (c6_batch, .ok 0) ∧
    0 < c6_batch.columns.length ∧
    (c6_batch.columns.getD 0 default).data = .tag [] [] {} ∧
    (c6_write.1.batch.columns.getD 0 default).data =
      .tag (tagOf (c6_write.1.batch.columns.getD 0 default)).1
        (tagOf (c6_write.1.batch.columns.getD 0 default)).2.1
        (tagOf (c6_write.1.batch.columns.getD 0 default)).2.2 ∧
    (tagOf (c6_write.1.batch.columns.getD 0 default)).2.1.length ≤
      List.length ([] : List String) +
        ((([0, 1, 0] : List Nat).take
          (set_position_iterator none (Writer.new ({} : MutableBatch) 3).to_insert).length).dedup).length ∧
    (tagOf (c6_write.1.batch.columns.getD 0 default)).2.1 = ["a", "b"] := by
  refine ⟨rfl, by decide, rfl, rfl, ?_, by decide⟩
  exact c6_dict_lazy (Writer.new {} 3) "t" none [0, 1, 0]
    ["a", "b", "c", "d", "e", "f", "g", "h", "i", "j"] c6_batch 0 [] [] {}
    rfl (by decide) rfl
    (tagOf (c6_write.1.batch.columns.getD 0 default)).1
    (tagOf (c6_write.1.batch.columns.getD 0 default)).2.1
    (tagOf (c6_write.1.batch.columns.getD 0 default)).2.2 rfl

/-! ## Claim C1: rollback on drop-without-commit

The rollback of `Drop for Writer` truncates by length. We track, per column,
what one write call may do to it (`ColStep`), the relation between the
in-transaction column and its pre-transaction state (`ColInv`), and what
rollback restores (`RestoredCol`). A well-formed batch (`batchWFb`) has every
validity bitmap and value store at `row_count` entries (the string store may
be shorter: string writes do not materialise trailing null slots) and every
tag dictionary exactly the one its retained codes reproduce under rollback. -/

/-- Well-formedness of one column of a batch at rest. -/
def colWFb (rc : Nat) (c : Column) : Bool :=
  (c.valid.length == rc) &&
  (match c.data with
   | .f64 d _ => d.length == rc
   | .i64 d _ => d.length == rc
   | .u64 d _ => d.length == rc
   | .bool d _ => d.length == rc
   | .string d _ => decide (d.length ≤ rc)
   | .tag d dict _ =>
     (d.length == rc) && d.all (fun x => decide (x < (dict.length : Int))) &&
       (rollbackDict d dict == dict))

/-- Well-formedness of a batch at rest. -/
def batchWFb (b : MutableBatch) : Bool :=
  b.columns.all (colWFb b.row_count)

/-- What one write call may do to the storage of one column: the first
`initial_rows` entries are preserved (the string store may in addition
materialise implicit null slots as empty strings), the tag dictionary only
grows, and cumulative statistics are untouched. -/
def DataStep (ir : Nat) : ColumnData → ColumnData → Prop
  | .f64 d s, .f64 d2 s2 =>
    s2 = s ∧ (ir ≤ d.length → ir ≤ d2.length ∧ d2.take ir = d.take ir)
  | .i64 d s, .i64 d2 s2 =>
    s2 = s ∧ (ir ≤ d.length → ir ≤ d2.length ∧ d2.take ir = d.take ir)
  | .u64 d s, .u64 d2 s2 =>
    s2 = s ∧ (ir ≤ d.length → ir ≤ d2.length ∧ d2.take ir = d.take ir)
  | .bool d s, .bool d2 s2 =>
    s2 = s ∧ (ir ≤ d.length → ir ≤ d2.length ∧ d2.take ir = d.take ir)
  | .string d s, .string d2 s2 =>
    s2 = s ∧ ∃ k, d2.take ir = d.take ir ++ List.replicate k ""
  | .tag d dict s, .tag d2 dict2 s2 =>
    s2 = s ∧ (ir ≤ d.length → ir ≤ d2.length ∧ d2.take ir = d.take ir) ∧
      dict.length ≤ dict2.length ∧ dict2.take dict.length = dict
  | _, _ => False

/-- What one write call may do to one column. -/
def ColStep (ir : Nat) (c c2 : Column) : Prop :=
  c2.influx_type = c.influx_type ∧
  (ir ≤ c.valid.length → ir ≤ c2.valid.length ∧ c2.valid.take ir = c.valid.take ir) ∧
  DataStep ir c.data c2.data

/-- Relation between the pre-transaction state of a column and its state
mid-transaction. -/
def DataInv (ir : Nat) : ColumnData → ColumnData → Prop
  | .f64 d0 s0, .f64 d s => s = s0 ∧ d0.length = ir ∧ d.take ir = d0
  | .i64 d0 s0, .i64 d s => s = s0 ∧ d0.length = ir ∧ d.take ir = d0
  | .u64 d0 s0, .u64 d s => s = s0 ∧ d0.length = ir ∧ d.take ir = d0
  | .bool d0 s0, .bool d s => s = s0 ∧ d0.length = ir ∧ d.take ir = d0
  | .string d0 s0, .string d s =>
    s = s0 ∧ d0.length ≤ ir ∧ ∃ k, d.take ir = d0 ++ List.replicate k ""
  | .tag d0 dict0 s0, .tag d dict s =>
    s = s0 ∧ d0.length = ir ∧ d.take ir = d0 ∧
      dict0.length ≤ dict.length ∧ dict.take dict0.length = dict0 ∧
      (∀ x ∈ d0, x < (dict0.length : Int)) ∧ rollbackDict d0 dict0 = dict0
  | _, _ => False

/-- Column-level transaction invariant relative to the initial state. -/
def ColInv (ir : Nat) (c0 c : Column) : Prop :=
  c.influx_type = c0.influx_type ∧
  c0.valid.length = ir ∧ c.valid.take ir = c0.valid ∧
  DataInv ir c0.data c.data

/-- What rollback restores: everything byte-for-byte, except that a string
value store may carry extra trailing empty-string entries in place of slots
that were implicit nulls before the transaction. -/
def RestoredCol (c0 c : Column) : Prop :=
  c.influx_type = c0.influx_type ∧ c.valid = c0.valid ∧
  match c0.data, c.data with
  | .f64 d0 s0, .f64 d s => s = s0 ∧ d = d0
  | .i64 d0 s0, .i64 d s => s = s0 ∧ d = d0
  | .u64 d0 s0, .u64 d s => s = s0 ∧ d = d0
  | .bool d0 s0, .bool d s => s = s0 ∧ d = d0
  | .string d0 s0, .string d s => s = s0 ∧ ∃ k, d = d0 ++ List.replicate k ""
  | .tag d0 dict0 s0, .tag d dict s => s = s0 ∧ d = d0 ∧ dict = dict0
  | _, _ => False

/-- What a write call may do to the whole batch: the row count is untouched,
columns are only appended, and existing columns move by `ColStep`. -/
def BatchStep (ir : Nat) (b b2 : MutableBatch) : Prop :=
  b2.row_count = b.row_count ∧ b.columns.length ≤ b2.columns.length ∧
  ∀ i, i < b.columns.length →
    ColStep ir (b.columns.getD i default) (b2.columns.getD i default)

/-- Reflexivity of `DataStep`. -/
theorem dataStep_refl (ir : Nat) : ∀ (cd : ColumnData), DataStep ir cd cd := by
  intro cd
  cases cd with
  | string d s => exact ⟨by rfl, 0, by simp⟩
  | tag d dict s => exact ⟨by rfl, fun h => ⟨h, by rfl⟩, le_refl _, List.take_length dict⟩
  | f64 d s => exact ⟨by rfl, fun h => ⟨h, by rfl⟩⟩
  | i64 d s => exact ⟨by rfl, fun h => ⟨h, by rfl⟩⟩
  | u64 d s => exact ⟨by rfl, fun h => ⟨h, by rfl⟩⟩
  | bool d s => exact ⟨by rfl, fun h => ⟨h, by rfl⟩⟩

/-- Reflexivity of `ColStep`. -/
theorem colStep_refl (ir : Nat) (c : Column) : ColStep ir c c :=
  ⟨by rfl, fun h => ⟨h, by rfl⟩, dataStep_refl ir c.data⟩

/-- Reflexivity of `BatchStep`. -/
theorem batchStep_refl (ir : Nat) (b : MutableBatch) : BatchStep ir b b :=
  ⟨by rfl, le_refl _, fun i _ => colStep_refl ir _⟩

/-- A list whose `take ir` has length `ir` is at least `ir` long. -/
theorem le_of_take_eq {α : Type} {l l0 : List α} {ir : Nat}
    (h : l.take ir = l0) (hlen : l0.length = ir) : ir ≤ l.length := by
  have hh := congrArg List.length h
  simp only [List.length_take, hlen] at hh
  omega

/-- Chaining two prefix-preservation facts. -/
theorem take_chain {α : Type} {dict0 dict dict2 : List α}
    (h1 : dict.take dict0.length = dict0)
    (hlen : dict0.length ≤ dict.length)
    (h2 : dict2.take dict.length = dict) :
    dict2.take dict0.length = dict0 := by
  have hh : dict2.take dict0.length = (dict2.take dict.length).take dict0.length := by
    rw [List.take_take, min_eq_left hlen]
  rw [hh, h2, h1]

/-- Chaining `DataInv` with one more `DataStep`. -/
theorem dataInv_step (ir : Nat) (cd0 cd cd2 : ColumnData)
    (h1 : DataInv ir cd0 cd) (h2 : DataStep ir cd cd2) : DataInv ir cd0 cd2 := by
  cases cd0 <;> cases cd <;> (try exact h1.elim) <;> cases cd2 <;> (try exact h2.elim)
  case f64 =>
    obtain ⟨hs, hlen, htake⟩ := h1
    obtain ⟨hs2, himp⟩ := h2
    obtain ⟨hle, hteq⟩ := himp (le_of_take_eq htake hlen)
    exact ⟨hs2.trans hs, hlen, hteq.trans htake⟩
  case i64 =>
    obtain ⟨hs, hlen, htake⟩ := h1
    obtain ⟨hs2, himp⟩ := h2
    obtain ⟨hle, hteq⟩ := himp (le_of_take_eq htake hlen)
    exact ⟨hs2.trans hs, hlen, hteq.trans htake⟩
  case u64 =>
    obtain ⟨hs, hlen, htake⟩ := h1
    obtain ⟨hs2, himp⟩ := h2
    obtain ⟨hle, hteq⟩ := himp (le_of_take_eq htake hlen)
    exact ⟨hs2.trans hs, hlen, hteq.trans htake⟩
  case bool =>
    obtain ⟨hs, hlen, htake⟩ := h1
    obtain ⟨hs2, himp⟩ := h2
    obtain ⟨hle, hteq⟩ := himp (le_of_take_eq htake hlen)
    exact ⟨hs2.trans hs, hlen, hteq.trans htake⟩
  case string =>
    obtain ⟨hs, hlen, k0, htake⟩ := h1
    obtain ⟨hs2, k1, htake2⟩ := h2
    refine ⟨hs2.trans hs, hlen, k0 + k1, ?_⟩
    rw [htake2, htake, List.append_assoc, List.replicate_add]
  case tag =>
    obtain ⟨hs, hlen, htake, hdlen, hdtake, hbound, hroll⟩ := h1
    obtain ⟨hs2, himp, hdlen2, hdtake2⟩ := h2
    obtain ⟨hle, hteq⟩ := himp (le_of_take_eq htake hlen)
    exact ⟨hs2.trans hs, hlen, hteq.trans htake, le_trans hdlen hdlen2,
      take_chain hdtake hdlen hdtake2, hbound, hroll⟩

/-- Chaining `ColInv` with one more `ColStep`. -/
theorem colInv_step (ir : Nat) (c0 c c2 : Column)
    (h1 : ColInv ir c0 c) (h2 : ColStep ir c c2) : ColInv ir c0 c2 := by
  obtain ⟨ht, hvl, hvt, hd⟩ := h1
  obtain ⟨ht2, hv2, hd2⟩ := h2
  obtain ⟨hle, hteq⟩ := hv2 (le_of_take_eq hvt hvl)
  exact ⟨ht2.trans ht, hvl, hteq.trans hvt, dataInv_step ir _ _ _ hd hd2⟩

/-- Setting a slot at or past `ir` leaves the first `ir` entries alone. -/
theorem take_set_ge {α : Type} (l : List α) (ir p : Nat) (v : α) :
    (l.set (ir + p) v).take ir = l.take ir := by
  rw [List.set_take]
  apply List.set_eq_of_length_le
  simp only [List.length_take]
  omega

/-- Resizing to at least `ir` slots leaves the first `ir` entries alone. -/
theorem listResize_take {α : Type} (l : List α) (n ir : Nat) (x : α)
    (h : ir ≤ l.length) (h2 : ir ≤ n) : (listResize l n x).take ir = l.take ir := by
  unfold listResize
  rw [List.take_append_of_le_length (by simp only [List.length_take]; omega),
    List.take_take, min_eq_left h2]

/-- Lookup-or-insert only ever appends to the dictionary. -/
theorem lookup_extends (dict : List String) (v : String) :
    dict.length ≤ (lookup_value_or_insert dict v).2.length ∧
      (lookup_value_or_insert dict v).2.take dict.length = dict := by
  unfold lookup_value_or_insert
  cases h : dict.findIdx? (· == v) <;> dsimp only
  · exact ⟨by simp, by rw [List.take_append_of_le_length le_rfl, List.take_length]⟩
  · exact ⟨le_refl _, List.take_length dict⟩

/-- Transitivity of `DataStep`. -/
theorem dataStep_trans (ir : Nat) (x y z : ColumnData)
    (h1 : DataStep ir x y) (h2 : DataStep ir y z) : DataStep ir x z := by
  cases x <;> cases y <;> (try exact h1.elim) <;> cases z <;> (try exact h2.elim)
  case f64 =>
    obtain ⟨hs1, hi1⟩ := h1
    obtain ⟨hs2, hi2⟩ := h2
    refine ⟨hs2.trans hs1, fun hir => ?_⟩
    obtain ⟨ha1, hb1⟩ := hi1 hir
    obtain ⟨ha2, hb2⟩ := hi2 ha1
    exact ⟨ha2, hb2.trans hb1⟩
  case i64 =>
    obtain ⟨hs1, hi1⟩ := h1
    obtain ⟨hs2, hi2⟩ := h2
    refine ⟨hs2.trans hs1, fun hir => ?_⟩
    obtain ⟨ha1, hb1⟩ := hi1 hir
    obtain ⟨ha2, hb2⟩ := hi2 ha1
    exact ⟨ha2, hb2.trans hb1⟩
  case u64 =>
    obtain ⟨hs1, hi1⟩ := h1
    obtain ⟨hs2, hi2⟩ := h2
    refine ⟨hs2.trans hs1, fun hir => ?_⟩
    obtain ⟨ha1, hb1⟩ := hi1 hir
    obtain ⟨ha2, hb2⟩ := hi2 ha1
    exact ⟨ha2, hb2.trans hb1⟩
  case bool =>
    obtain ⟨hs1, hi1⟩ := h1
    obtain ⟨hs2, hi2⟩ := h2
    refine ⟨hs2.trans hs1, fun hir => ?_⟩
    obtain ⟨ha1, hb1⟩ := hi1 hir
    obtain ⟨ha2, hb2⟩ := hi2 ha1
    exact ⟨ha2, hb2.trans hb1⟩
  case string =>
    obtain ⟨hs1, k1, hk1⟩ := h1
    obtain ⟨hs2, k2, hk2⟩ := h2
    exact ⟨hs2.trans hs1, k1 + k2,
      by rw [hk2, hk1, List.append_assoc, List.replicate_add]⟩
  case tag =>
    obtain ⟨hs1, hi1, hl1, ht1⟩ := h1
    obtain ⟨hs2, hi2, hl2, ht2⟩ := h2
    refine ⟨hs2.trans hs1, fun hir => ?_, le_trans hl1 hl2, take_chain ht1 hl1 ht2⟩
    obtain ⟨ha1, hb1⟩ := hi1 hir
    obtain ⟨ha2, hb2⟩ := hi2 ha1
    exact ⟨ha2, hb2.trans hb1⟩

/-- Transitivity of `ColStep`. -/
theorem colStep_trans (ir : Nat) (a b c : Column)
    (h1 : ColStep ir a b) (h2 : ColStep ir b c) : ColStep ir a c := by
  obtain ⟨ht1, hv1, hd1⟩ := h1
  obtain ⟨ht2, hv2, hd2⟩ := h2
  refine ⟨ht2.trans ht1, fun hir => ?_, dataStep_trans ir _ _ _ hd1 hd2⟩
  obtain ⟨ha1, hb1⟩ := hv1 hir
  obtain ⟨ha2, hb2⟩ := hv2 ha1
  exact ⟨ha2, hb2.trans hb1⟩

/-- Transitivity of `BatchStep`. -/
theorem batchStep_trans (ir : Nat) (a b c : MutableBatch)
    (h1 : BatchStep ir a b) (h2 : BatchStep ir b c) : BatchStep ir a c :=
  ⟨h2.1.trans h1.1, le_trans h1.2.1 h2.2.1,
    fun i hi => colStep_trans ir _ _ _ (h1.2.2 i hi)
      (h2.2.2 i (lt_of_lt_of_le hi h1.2.1))⟩

/-- Column resolution only ever appends a new column: a `BatchStep` for any
threshold. -/
theorem column_mut_step (irS : Nat) (b : MutableBatch) (ir : Nat) (name : String)
    (t : InfluxColumnType) : BatchStep irS b (column_mut b ir name t).1 := by
  unfold column_mut
  dsimp only
  rcases hlk : b.column_names.lookup name with _ | idx <;> dsimp only
  · rw [if_pos rfl]
    refine ⟨rfl, by simp, ?_⟩
    intro i hi
    have heq : (b.columns ++ [Column.new ir t]).getD i default =
        b.columns.getD i default := by
      rw [List.getD_eq_getElem?_getD, List.getElem?_append_left hi,
        ← List.getD_eq_getElem?_getD]
    show ColStep irS (b.columns.getD i default)
      ((b.columns ++ [Column.new ir t]).getD i default)
    rw [heq]
    exact colStep_refl irS _
  · by_cases hpush : b.columns.length = idx
    · rw [if_pos hpush]
      refine ⟨rfl, by simp, ?_⟩
      intro i hi
      have heq : (b.columns ++ [Column.new ir t]).getD i default =
          b.columns.getD i default := by
        rw [List.getD_eq_getElem?_getD, List.getElem?_append_left hi,
          ← List.getD_eq_getElem?_getD]
      show ColStep irS (b.columns.getD i default)
        ((b.columns ++ [Column.new ir t]).getD i default)
      rw [heq]
      exact colStep_refl irS _
    · rw [if_neg hpush]
      exact batchStep_refl irS b

/-- Replacing one column by a permitted update is a `BatchStep`. -/
theorem setColumn_step (irS : Nat) (b : MutableBatch) (idx : Nat) (c2 : Column)
    (h : ColStep irS (b.columns.getD idx default) c2) :
    BatchStep irS b (setColumn b idx c2) := by
  refine ⟨rfl, by simp [setColumn], ?_⟩
  intro i hi
  by_cases hik : idx = i
  · subst hik
    rw [setColumn_getD_self b idx c2 hi]
    exact h
  · have heq : (setColumn b idx c2).columns.getD i default =
        b.columns.getD i default := by
      simp [setColumn, List.getD_eq_getElem?_getD, List.getElem?_set_ne hik]
    rw [heq]
    exact colStep_refl irS _

/-- A column step that only replaces the storage. -/
theorem colStep_of_data (ir : Nat) (c : Column) (cd2 : ColumnData)
    (h : DataStep ir c.data cd2) : ColStep ir c { c with data := cd2 } :=
  ⟨by rfl, fun hh => ⟨hh, by rfl⟩, h⟩

/-- Appending validity bits after a column step is still a column step. -/
theorem colStep_append (ir : Nat) (c c2 : Column) (m : Option (List Nat)) (n : Nat)
    (h : ColStep ir c c2) : ColStep ir c (append_valid_mask c2 m n) := by
  obtain ⟨ht, hv, hd⟩ := h
  refine ⟨?_, ?_, ?_⟩
  · rw [append_valid_mask_influx]
    exact ht
  · intro hir
    obtain ⟨hle, hteq⟩ := hv hir
    cases m <;>
      exact ⟨by simp only [append_valid_mask, List.length_append]; omega,
        by simp only [append_valid_mask]
           rw [List.take_append_of_le_length hle]
           exact hteq⟩
  · rw [append_valid_mask_data]
    exact hd

/-- A well-formed column is its own transaction invariant. -/
theorem colWF_colInv (rc : Nat) (c : Column) (h : colWFb rc c = true) :
    ColInv rc c c := by
  obtain ⟨t, cvalid, cdata⟩ := c
  cases cdata with
  | f64 d s =>
    simp only [colWFb, Bool.and_eq_true, beq_iff_eq] at h
    exact ⟨by rfl, h.1, by rw [← h.1, List.take_length],
      by rfl, h.2, by rw [← h.2, List.take_length]⟩
  | i64 d s =>
    simp only [colWFb, Bool.and_eq_true, beq_iff_eq] at h
    exact ⟨by rfl, h.1, by rw [← h.1, List.take_length],
      by rfl, h.2, by rw [← h.2, List.take_length]⟩
  | u64 d s =>
    simp only [colWFb, Bool.and_eq_true, beq_iff_eq] at h
    exact ⟨by rfl, h.1, by rw [← h.1, List.take_length],
      by rfl, h.2, by rw [← h.2, List.take_length]⟩
  | bool d s =>
    simp only [colWFb, Bool.and_eq_true, beq_iff_eq] at h
    exact ⟨by rfl, h.1, by rw [← h.1, List.take_length],
      by rfl, h.2, by rw [← h.2, List.take_length]⟩
  | string d s =>
    simp only [colWFb, Bool.and_eq_true, beq_iff_eq, decide_eq_true_eq] at h
    exact ⟨by rfl, h.1, by rw [← h.1, List.take_length],
      by rfl, h.2, 0, by rw [(List.take_eq_self_iff d).mpr h.2]; simp⟩
  | tag d dict s =>
    simp only [colWFb, Bool.and_eq_true, beq_iff_eq, List.all_eq_true,
      decide_eq_true_eq] at h
    obtain ⟨hv, ⟨hdl, hball⟩, hroll⟩ := h
    exact ⟨by rfl, hv, by rw [← hv, List.take_length],
      by rfl, hdl, by rw [← hdl, List.take_length],
      le_refl _, List.take_length dict, hball, hroll⟩

/-- Every column of a well-formed batch is its own transaction invariant. -/
theorem batchWF_colInv (b : MutableBatch) (h : batchWFb b = true) :
    ∀ i, i < b.columns.length →
      ColInv b.row_count (b.columns.getD i default) (b.columns.getD i default) := by
  intro i hi
  apply colWF_colInv
  apply List.all_eq_true.mp h
  rw [List.getD_eq_getElem _ _ hi]
  exact List.getElem_mem hi

/-- The fixed-width write loops preserve the first `initial_rows` slots. -/
theorem loopVal_step {α : Type} [ValOrd α] (ir n : Nat) (ps : List Nat) (vs : List α)
    (d : List α) (x : α) (hir : ir ≤ d.length) :
    ir ≤ (writeLoop (stepVal ir) ps vs
        (listResize d (ir + n) x, StatValues.new_empty)).1.1.length ∧
      (writeLoop (stepVal ir) ps vs
        (listResize d (ir + n) x, StatValues.new_empty)).1.1.take ir = d.take ir := by
  have hi := writeLoop_fst_inv (stepVal ir)
    (fun s => s.1.length = ir + n ∧ s.1.take ir = d.take ir)
    (fun s p v hp => ⟨by simp [stepVal, List.length_set, hp.1],
      by
        show (s.1.set (ir + p) v).take ir = d.take ir
        rw [take_set_ge]
        exact hp.2⟩)
    ps vs (listResize d (ir + n) x, StatValues.new_empty)
    ⟨listResize_length d (ir + n) x, listResize_take d (ir + n) ir x hir (Nat.le_add_right ir n)⟩
  exact ⟨by rw [hi.1]; exact Nat.le_add_right ir n, hi.2⟩

/-- The boolean write loop preserves the first `initial_rows` slots. -/
theorem loopBool_step (ir n : Nat) (ps : List Nat) (vs : List Bool)
    (d : List Bool) (hir : ir ≤ d.length) :
    ir ≤ (writeLoop (stepBool ir) ps vs
        (d ++ List.replicate n false, StatValues.new_empty)).1.1.length ∧
      (writeLoop (stepBool ir) ps vs
        (d ++ List.replicate n false, StatValues.new_empty)).1.1.take ir = d.take ir := by
  have hi := writeLoop_fst_inv (stepBool ir)
    (fun s => s.1.length = d.length + n ∧ s.1.take ir = d.take ir)
    (fun s p v hp => by
      cases v
      · exact hp
      · exact ⟨by simp [stepBool, List.length_set, hp.1],
          by
            show (s.1.set (ir + p) true).take ir = d.take ir
            rw [take_set_ge]
            exact hp.2⟩)
    ps vs (d ++ List.replicate n false, StatValues.new_empty)
    ⟨by simp, List.take_append_of_le_length hir⟩
  exact ⟨by rw [hi.1]; omega, hi.2⟩

/-- The string write loop can only extend the first `initial_rows` slots with
empty strings in place of implicit nulls. -/
theorem loopString_step (ir : Nat) (ps : List Nat) (vs : List String)
    (d : List String) :
    ∃ k, (writeLoop (stepString ir) ps vs (d, StatValues.new_empty)).1.1.take ir =
      d.take ir ++ List.replicate k "" := by
  have hi := writeLoop_fst_inv (stepString ir)
    (fun s => ∃ k, s.1.take ir = d.take ir ++ List.replicate k "")
    (fun s p v hp => by
      obtain ⟨k, hk⟩ := hp
      by_cases hc : ir ≤ s.1.length
      · refine ⟨k, ?_⟩
        show ((s.1 ++ List.replicate (ir + p - s.1.length) "") ++ [v]).take ir =
          d.take ir ++ List.replicate k ""
        rw [List.take_append_of_le_length (by simp only [List.length_append]; omega),
          List.take_append_of_le_length hc]
        exact hk
      · push_neg at hc
        refine ⟨k + (ir - s.1.length), ?_⟩
        show ((s.1 ++ List.replicate (ir + p - s.1.length) "") ++ [v]).take ir =
          d.take ir ++ List.replicate (k + (ir - s.1.length)) ""
        have hfull : s.1.take ir = s.1 := (List.take_eq_self_iff s.1).mpr (le_of_lt hc)
        rw [List.take_append_eq_append_take, List.take_append_eq_append_take,
          hfull, List.take_replicate]
        have h1 : min (ir - s.1.length) (ir + p - s.1.length) = ir - s.1.length := by
          apply min_eq_left
          omega
        have h2 : ir - (s.1 ++ List.replicate (ir + p - s.1.length) "").length = 0 := by
          simp only [List.length_append, List.length_replicate]
          omega
        rw [h1, h2]
        simp only [List.take_zero, List.append_nil]
        rw [← hfull, hk, List.append_assoc, List.replicate_add])
    ps vs (d, StatValues.new_empty) ⟨0, by simp⟩
  exact hi

/-- The tag write loop only appends to the dictionary. -/
theorem loopTag_dict_step (ir : Nat) (ps : List Nat) (vs : List String)
    (dstart : List Int) (dict : List String) :
    dict.length ≤ (writeLoop (stepTag ir) ps vs
        (dstart, dict, StatValues.new_empty)).1.2.1.length ∧
      (writeLoop (stepTag ir) ps vs
        (dstart, dict, StatValues.new_empty)).1.2.1.take dict.length = dict := by
  exact writeLoop_fst_inv (stepTag ir)
    (fun s => dict.length ≤ s.2.1.length ∧ s.2.1.take dict.length = dict)
    (fun s p v hp => by
      obtain ⟨hle, htake⟩ := hp
      obtain ⟨hle2, htake2⟩ := lookup_extends s.2.1 v
      exact ⟨le_trans hle hle2, take_chain htake hle htake2⟩)
    ps vs (dstart, dict, StatValues.new_empty) ⟨le_refl _, List.take_length dict⟩

/-- The tag write loop preserves the first `initial_rows` code slots. -/
theorem loopTag_data_step (ir n : Nat) (ps : List Nat) (vs : List String)
    (d : List Int) (dict : List String) (hir : ir ≤ d.length) :
    ir ≤ (writeLoop (stepTag ir) ps vs
        (listResize d (ir + n) INVALID_DID, dict, StatValues.new_empty)).1.1.length ∧
      (writeLoop (stepTag ir) ps vs
        (listResize d (ir + n) INVALID_DID, dict,
          StatValues.new_empty)).1.1.take ir = d.take ir := by
  have hi := writeLoop_fst_inv (stepTag ir)
    (fun s => s.1.length = ir + n ∧ s.1.take ir = d.take ir)
    (fun s p v hp => ⟨by simp [stepTag, List.length_set, hp.1],
      by
        show (s.1.set (ir + p) _).take ir = d.take ir
        rw [take_set_ge]
        exact hp.2⟩)
    ps vs (listResize d (ir + n) INVALID_DID, dict, StatValues.new_empty)
    ⟨listResize_length d (ir + n) INVALID_DID,
      listResize_take d (ir + n) ir INVALID_DID hir (Nat.le_add_right ir n)⟩
  exact ⟨by rw [hi.1]; exact Nat.le_add_right ir n, hi.2⟩

/-- The dictionary-coded tag loop only appends to the dictionary. -/
theorem tdLoop_dict_step (ir : Nat) (ps ks : List Nat)
    (m : List (String × Option Int)) (dstart : List Int) (dict : List String)
    (st : StatValues String) :
    dict.length ≤ (tagDictLoop ir ps ks m dstart dict st).2.1.length ∧
      (tagDictLoop ir ps ks m dstart dict st).2.1.take dict.length = dict := by
  exact tagDictLoop_inv ir
    (fun d2 dict2 => dict.length ≤ dict2.length ∧ dict2.take dict.length = dict)
    (fun d2 dict2 p x hp => hp)
    (fun d2 dict2 v hp => by
      obtain ⟨hle, htake⟩ := hp
      obtain ⟨hle2, htake2⟩ := lookup_extends dict2 v
      exact ⟨le_trans hle hle2, take_chain htake hle htake2⟩)
    ps ks m dstart dict st ⟨le_refl _, List.take_length dict⟩

/-- The dictionary-coded tag loop preserves the first `initial_rows` slots. -/
theorem tdLoop_data_step (ir n : Nat) (ps ks : List Nat)
    (m : List (String × Option Int)) (d : List Int) (dict : List String)
    (st : StatValues String) (hir : ir ≤ d.length) :
    ir ≤ (tagDictLoop ir ps ks m
        (listResize d (ir + n) INVALID_DID) dict st).1.length ∧
      (tagDictLoop ir ps ks m
        (listResize d (ir + n) INVALID_DID) dict st).1.take ir = d.take ir := by
  have hi := tagDictLoop_inv ir
    (fun d2 _ => d2.length = ir + n ∧ d2.take ir = d.take ir)
    (fun d2 dict2 p x hp => ⟨by simp [List.length_set, hp.1],
      by rw [take_set_ge]; exact hp.2⟩)
    (fun d2 dict2 v hp => hp)
    ps ks m (listResize d (ir + n) INVALID_DID) dict st
    ⟨listResize_length d (ir + n) INVALID_DID,
      listResize_take d (ir + n) ir INVALID_DID hir (Nat.le_add_right ir n)⟩
  exact ⟨by rw [hi.1]; exact Nat.le_add_right ir n, hi.2⟩

/-- One write call preserves the writer scalars and is a `BatchStep` on the
batch, whatever the outcome. -/
theorem applyOp_step (w : Writer) (op : WriteOp) :
    (applyOp w op).1.initial_rows = w.initial_rows ∧
    (applyOp w op).1.to_insert = w.to_insert ∧
    (applyOp w op).1.success = w.success ∧
    BatchStep w.initial_rows w.batch (applyOp w op).1.batch := by
  cases op with
  | wF64 name mask vs =>
    simp only [applyOp]
    unfold Writer.write_f64
    dsimp only
    rcases hcm : column_mut w.batch w.initial_rows name (.field .float) with ⟨b, r⟩
    have hbs : BatchStep w.initial_rows w.batch b := by
      have hh := column_mut_step w.initial_rows w.batch w.initial_rows name (.field .float)
      rw [hcm] at hh
      exact hh
    cases r with
    | err e => exact ⟨rfl, rfl, rfl, hbs⟩
    | panicked => exact ⟨rfl, rfl, rfl, hbs⟩
    | ok idx =>
      dsimp only
      rcases hcd : (b.columns.getD idx default).data with ⟨d, s⟩ | ⟨d, s⟩ | ⟨d, s⟩
        | ⟨d, s⟩ | ⟨d, s⟩ | ⟨d, dict, s⟩ <;> dsimp only
      · rcases hl : writeLoop (stepVal w.initial_rows)
          (set_position_iterator mask w.to_insert) vs
          (listResize d (w.initial_rows + w.to_insert) 0.0, StatValues.new_empty) with
          ⟨⟨dd, stt⟩, rem, flag⟩
        have hds : DataStep w.initial_rows (b.columns.getD idx default).data
            (ColumnData.f64 dd s) := by
          rw [hcd]
          refine ⟨by rfl, fun hir => ?_⟩
          have hv := loopVal_step w.initial_rows w.to_insert
            (set_position_iterator mask w.to_insert) vs d 0.0 hir
          rw [hl] at hv
          exact hv
        cases flag
        · exact ⟨rfl, rfl, rfl, batchStep_trans _ _ _ _ hbs
            (setColumn_step _ b idx _ (colStep_of_data _ _ _ hds))⟩
        · exact ⟨rfl, rfl, rfl, batchStep_trans _ _ _ _ hbs
            (setColumn_step _ b idx _ (colStep_append _ _ _ mask w.to_insert
              (colStep_of_data _ _ _ hds)))⟩
      · exact ⟨rfl, rfl, rfl, hbs⟩
      · exact ⟨rfl, rfl, rfl, hbs⟩
      · exact ⟨rfl, rfl, rfl, hbs⟩
      · exact ⟨rfl, rfl, rfl, hbs⟩
      · exact ⟨rfl, rfl, rfl, hbs⟩
  | wI64 name mask vs =>
    simp only [applyOp]
    unfold Writer.write_i64
    dsimp only
    rcases hcm : column_mut w.batch w.initial_rows name (.field .integer) with ⟨b, r⟩
    have hbs : BatchStep w.initial_rows w.batch b := by
      have hh := column_mut_step w.initial_rows w.batch w.initial_rows name (.field .integer)
      rw [hcm] at hh
      exact hh
    cases r with
    | err e => exact ⟨rfl, rfl, rfl, hbs⟩
    | panicked => exact ⟨rfl, rfl, rfl, hbs⟩
    | ok idx =>
      dsimp only
      rcases hcd : (b.columns.getD idx default).data with ⟨d, s⟩ | ⟨d, s⟩ | ⟨d, s⟩
        | ⟨d, s⟩ | ⟨d, s⟩ | ⟨d, dict, s⟩ <;> dsimp only
      · exact ⟨rfl, rfl, rfl, hbs⟩
      · rcases hl : writeLoop (stepVal w.initial_rows)
          (set_position_iterator mask w.to_insert) vs
          (listResize d (w.initial_rows + w.to_insert) 0, StatValues.new_empty) with
          ⟨⟨dd, stt⟩, rem, flag⟩
        have hds : DataStep w.initial_rows (b.columns.getD idx default).data
            (ColumnData.i64 dd s) := by
          rw [hcd]
          refine ⟨by rfl, fun hir => ?_⟩
          have hv := loopVal_step w.initial_rows w.to_insert
            (set_position_iterator mask w.to_insert) vs d 0 hir
          rw [hl] at hv
          exact hv
        cases flag
        · exact ⟨rfl, rfl, rfl, batchStep_trans _ _ _ _ hbs
            (setColumn_step _ b idx _ (colStep_of_data _ _ _ hds))⟩
        · exact ⟨rfl, rfl, rfl, batchStep_trans _ _ _ _ hbs
            (setColumn_step _ b idx _ (colStep_append _ _ _ mask w.to_insert
              (colStep_of_data _ _ _ hds)))⟩
      · exact ⟨rfl, rfl, rfl, hbs⟩
      · exact ⟨rfl, rfl, rfl, hbs⟩
      · exact ⟨rfl, rfl, rfl, hbs⟩
      · exact ⟨rfl, rfl, rfl, hbs⟩
  | wU64 name mask vs =>
    simp only [applyOp]
    unfold Writer.write_u64
    dsimp only
    rcases hcm : column_mut w.batch w.initial_rows name (.field .uinteger) with ⟨b, r⟩
    have hbs : BatchStep w.initial_rows w.batch b := by
      have hh := column_mut_step w.initial_rows w.batch w.initial_rows name (.field .uinteger)
      rw [hcm] at hh
      exact hh
    cases r with
    | err e => exact ⟨rfl, rfl, rfl, hbs⟩
    | panicked => exact ⟨rfl, rfl, rfl, hbs⟩
    | ok idx =>
      dsimp only
      rcases hcd : (b.columns.getD idx default).data with ⟨d, s⟩ | ⟨d, s⟩ | ⟨d, s⟩
        | ⟨d, s⟩ | ⟨d, s⟩ | ⟨d, dict, s⟩ <;> dsimp only
      · exact ⟨rfl, rfl, rfl, hbs⟩
      · exact ⟨rfl, rfl, rfl, hbs⟩
      · rcases hl : writeLoop (stepVal w.initial_rows)
          (set_position_iterator mask w.to_insert) vs
          (listResize d (w.initial_rows + w.to_insert) 0, StatValues.new_empty) with
          ⟨⟨dd, stt⟩, rem, flag⟩
        have hds : DataStep w.initial_rows (b.columns.getD idx default).data
            (ColumnData.u64 dd s) := by
          rw [hcd]
          refine ⟨by rfl, fun hir => ?_⟩
          have hv := loopVal_step w.initial_rows w.to_insert
            (set_position_iterator mask w.to_insert) vs d 0 hir
          rw [hl] at hv
          exact hv
        cases flag
        · exact ⟨rfl, rfl, rfl, batchStep_trans _ _ _ _ hbs
            (setColumn_step _ b idx _ (colStep_of_data _ _ _ hds))⟩
        · exact ⟨rfl, rfl, rfl, batchStep_trans _ _ _ _ hbs
            (setColumn_step _ b idx _ (colStep_append _ _ _ mask w.to_insert
              (colStep_of_data _ _ _ hds)))⟩
      · exact ⟨rfl, rfl, rfl, hbs⟩
      · exact ⟨rfl, rfl, rfl, hbs⟩
      · exact ⟨rfl, rfl, rfl, hbs⟩
  | wBool name mask vs =>
    simp only [applyOp]
    unfold Writer.write_bool
    dsimp only
    rcases hcm : column_mut w.batch w.initial_rows name (.field .boolean) with ⟨b, r⟩
    have hbs : BatchStep w.initial_rows w.batch b := by
      have hh := column_mut_step w.initial_rows w.batch w.initial_rows name (.field .boolean)
      rw [hcm] at hh
      exact hh
    cases r with
    | err e => exact ⟨rfl, rfl, rfl, hbs⟩
    | panicked => exact ⟨rfl, rfl, rfl, hbs⟩
    | ok idx =>
      dsimp only
      rcases hcd : (b.columns.getD idx default).data with ⟨d, s⟩ | ⟨d, s⟩ | ⟨d, s⟩
        | ⟨d, s⟩ | ⟨d, s⟩ | ⟨d, dict, s⟩ <;> dsimp only
      · exact ⟨rfl, rfl, rfl, hbs⟩
      · exact ⟨rfl, rfl, rfl, hbs⟩
      · exact ⟨rfl, rfl, rfl, hbs⟩
      · exact ⟨rfl, rfl, rfl, hbs⟩
      · rcases hl : writeLoop (stepBool w.initial_rows)
          (set_position_iterator mask w.to_insert) vs
          (d ++ List.replicate w.to_insert false, StatValues.new_empty) with
          ⟨⟨dd, stt⟩, rem, flag⟩
        have hds : DataStep w.initial_rows (b.columns.getD idx default).data
            (ColumnData.bool dd s) := by
          rw [hcd]
          refine ⟨by rfl, fun hir => ?_⟩
          have hv := loopBool_step w.initial_rows w.to_insert
            (set_position_iterator mask w.to_insert) vs d hir
          rw [hl] at hv
          exact hv
        cases flag
        · exact ⟨rfl, rfl, rfl, batchStep_trans _ _ _ _ hbs
            (setColumn_step _ b idx _ (colStep_of_data _ _ _ hds))⟩
        · exact ⟨rfl, rfl, rfl, batchStep_trans _ _ _ _ hbs
            (setColumn_step _ b idx _ (colStep_append _ _ _ mask w.to_insert
              (colStep_of_data _ _ _ hds)))⟩
      · exact ⟨rfl, rfl, rfl, hbs⟩
  | wStr name mask vs =>
    simp only [applyOp]
    unfold Writer.write_string
    dsimp only
    rcases hcm : column_mut w.batch w.initial_rows name (.field .string) with ⟨b, r⟩
    have hbs : BatchStep w.initial_rows w.batch b := by
      have hh := column_mut_step w.initial_rows w.batch w.initial_rows name (.field .string)
      rw [hcm] at hh
      exact hh
    cases r with
    | err e => exact ⟨rfl, rfl, rfl, hbs⟩
    | panicked => exact ⟨rfl, rfl, rfl, hbs⟩
    | ok idx =>
      dsimp only
      rcases hcd : (b.columns.getD idx default).data with ⟨d, s⟩ | ⟨d, s⟩ | ⟨d, s⟩
        | ⟨d, s⟩ | ⟨d, s⟩ | ⟨d, dict, s⟩ <;> dsimp only
      · exact ⟨rfl, rfl, rfl, hbs⟩
      · exact ⟨rfl, rfl, rfl, hbs⟩
      · exact ⟨rfl, rfl, rfl, hbs⟩
      · rcases hl : writeLoop (stepString w.initial_rows)
          (set_position_iterator mask w.to_insert) vs
          (d, StatValues.new_empty) with ⟨⟨dd, stt⟩, rem, flag⟩
        have hds : DataStep w.initial_rows (b.columns.getD idx default).data
            (ColumnData.string dd s) := by
          rw [hcd]
          refine ⟨by rfl, ?_⟩
          have hv := loopString_step w.initial_rows
            (set_position_iterator mask w.to_insert) vs d
          rw [hl] at hv
          exact hv
        cases flag
        · exact ⟨rfl, rfl, rfl, batchStep_trans _ _ _ _ hbs
            (setColumn_step _ b idx _ (colStep_of_data _ _ _ hds))⟩
        · exact ⟨rfl, rfl, rfl, batchStep_trans _ _ _ _ hbs
            (setColumn_step _ b idx _ (colStep_append _ _ _ mask w.to_insert
              (colStep_of_data _ _ _ hds)))⟩
      · exact ⟨rfl, rfl, rfl, hbs⟩
      · exact ⟨rfl, rfl, rfl, hbs⟩
  | wTag name mask vs =>
    simp only [applyOp]
    unfold Writer.write_tag
    dsimp only
    rcases hcm : column_mut w.batch w.initial_rows name (.tag) with ⟨b, r⟩
    have hbs : BatchStep w.initial_rows w.batch b := by
      have hh := column_mut_step w.initial_rows w.batch w.initial_rows name (.tag)
      rw [hcm] at hh
      exact hh
    cases r with
    | err e => exact ⟨rfl, rfl, rfl, hbs⟩
    | panicked => exact ⟨rfl, rfl, rfl, hbs⟩
    | ok idx =>
      dsimp only
      rcases hcd : (b.columns.getD idx default).data with ⟨d, s⟩ | ⟨d, s⟩ | ⟨d, s⟩
        | ⟨d, s⟩ | ⟨d, s⟩ | ⟨d, dict, s⟩ <;> dsimp only
      · exact ⟨rfl, rfl, rfl, hbs⟩
      · exact ⟨rfl, rfl, rfl, hbs⟩
      · exact ⟨rfl, rfl, rfl, hbs⟩
      · exact ⟨rfl, rfl, rfl, hbs⟩
      · exact ⟨rfl, rfl, rfl, hbs⟩
      · rcases hl : writeLoop (stepTag w.initial_rows)
          (set_position_iterator mask w.to_insert) vs
          (listResize d (w.initial_rows + w.to_insert) INVALID_DID, dict,
            StatValues.new_empty) with ⟨⟨dd, dct, stt⟩, rem, flag⟩
        have hds : DataStep w.initial_rows (b.columns.getD idx default).data
            (ColumnData.tag dd dct s) := by
          rw [hcd]
          have hdict := loopTag_dict_step w.initial_rows
            (set_position_iterator mask w.to_insert) vs
            (listResize d (w.initial_rows + w.to_insert) INVALID_DID) dict
          rw [hl] at hdict
          refine ⟨by rfl, fun hir => ?_, hdict.1, hdict.2⟩
          have hv := loopTag_data_step w.initial_rows w.to_insert
            (set_position_iterator mask w.to_insert) vs d dict hir
          rw [hl] at hv
          exact hv
        cases flag
        · exact ⟨rfl, rfl, rfl, batchStep_trans _ _ _ _ hbs
            (setColumn_step _ b idx _ (colStep_of_data _ _ _ hds))⟩
        · exact ⟨rfl, rfl, rfl, batchStep_trans _ _ _ _ hbs
            (setColumn_step _ b idx _ (colStep_append _ _ _ mask w.to_insert
              (colStep_of_data _ _ _ hds)))⟩
  | wTagDict name mask ks vs =>
    simp only [applyOp]
    unfold Writer.write_tag_dict
    dsimp only
    rcases hcm : column_mut w.batch w.initial_rows name (.tag) with ⟨b, r⟩
    have hbs : BatchStep w.initial_rows w.batch b := by
      have hh := column_mut_step w.initial_rows w.batch w.initial_rows name (.tag)
      rw [hcm] at hh
      exact hh
    cases r with
    | err e => exact ⟨rfl, rfl, rfl, hbs⟩
    | panicked => exact ⟨rfl, rfl, rfl, hbs⟩
    | ok idx =>
      dsimp only
      rcases hcd : (b.columns.getD idx default).data with ⟨d, s⟩ | ⟨d, s⟩ | ⟨d, s⟩
        | ⟨d, s⟩ | ⟨d, s⟩ | ⟨d, dict, s⟩ <;> dsimp only
      · exact ⟨rfl, rfl, rfl, hbs⟩
      · exact ⟨rfl, rfl, rfl, hbs⟩
      · exact ⟨rfl, rfl, rfl, hbs⟩
      · exact ⟨rfl, rfl, rfl, hbs⟩
      · exact ⟨rfl, rfl, rfl, hbs⟩
      · rcases hl : tagDictLoop w.initial_rows
          (set_position_iterator mask w.to_insert) ks
          (List.map (fun v => (v, none)) vs)
          (listResize d (w.initial_rows + w.to_insert) INVALID_DID) dict
          StatValues.new_empty with ⟨dd, dct, mm, stt, res⟩
        have hds : DataStep w.initial_rows (b.columns.getD idx default).data
            (ColumnData.tag dd dct s) := by
          rw [hcd]
          have hdict := tdLoop_dict_step w.initial_rows
            (set_position_iterator mask w.to_insert) ks
            (List.map (fun v => (v, none)) vs)
            (listResize d (w.initial_rows + w.to_insert) INVALID_DID) dict
            StatValues.new_empty
          rw [hl] at hdict
          refine ⟨by rfl, fun hir => ?_, hdict.1, hdict.2⟩
          have hv := tdLoop_data_step w.initial_rows w.to_insert
            (set_position_iterator mask w.to_insert) ks
            (List.map (fun v => (v, none)) vs) d dict StatValues.new_empty hir
          rw [hl] at hv
          exact hv
        cases res
        · exact ⟨rfl, rfl, rfl, batchStep_trans _ _ _ _ hbs
            (setColumn_step _ b idx _ (colStep_append _ _ _ mask w.to_insert
              (colStep_of_data _ _ _ hds)))⟩
        · exact ⟨rfl, rfl, rfl, batchStep_trans _ _ _ _ hbs
            (setColumn_step _ b idx _ (colStep_of_data _ _ _ hds))⟩
        · exact ⟨rfl, rfl, rfl, batchStep_trans _ _ _ _ hbs
            (setColumn_step _ b idx _ (colStep_of_data _ _ _ hds))⟩
  | wTime name vs =>
    simp only [applyOp]
    unfold Writer.write_time
    dsimp only
    rcases hcm : column_mut w.batch w.initial_rows name (.timestamp) with ⟨b, r⟩
    have hbs : BatchStep w.initial_rows w.batch b := by
      have hh := column_mut_step w.initial_rows w.batch w.initial_rows name (.timestamp)
      rw [hcm] at hh
      exact hh
    cases r with
    | err e => exact ⟨rfl, rfl, rfl, hbs⟩
    | panicked => exact ⟨rfl, rfl, rfl, hbs⟩
    | ok idx =>
      dsimp only
      rcases hcd : (b.columns.getD idx default).data with ⟨d, s⟩ | ⟨d, s⟩ | ⟨d, s⟩
        | ⟨d, s⟩ | ⟨d, s⟩ | ⟨d, dict, s⟩ <;> dsimp only
      · exact ⟨rfl, rfl, rfl, hbs⟩
      · rcases hl : writeLoop (stepVal w.initial_rows)
          (List.range w.to_insert) vs
          (listResize d (w.initial_rows + w.to_insert) 0, StatValues.new_empty) with
          ⟨⟨dd, stt⟩, rem, flag⟩
        have hds : DataStep w.initial_rows (b.columns.getD idx default).data
            (ColumnData.i64 dd s) := by
          rw [hcd]
          refine ⟨by rfl, fun hir => ?_⟩
          have hv := loopVal_step w.initial_rows w.to_insert
            (List.range w.to_insert) vs d 0 hir
          rw [hl] at hv
          exact hv
        cases flag
        · exact ⟨rfl, rfl, rfl, batchStep_trans _ _ _ _ hbs
            (setColumn_step _ b idx _ (colStep_of_data _ _ _ hds))⟩
        · exact ⟨rfl, rfl, rfl, batchStep_trans _ _ _ _ hbs
            (setColumn_step _ b idx _ (colStep_append _ _ _ none w.to_insert
              (colStep_of_data _ _ _ hds)))⟩
      · exact ⟨rfl, rfl, rfl, hbs⟩
      · exact ⟨rfl, rfl, rfl, hbs⟩
      · exact ⟨rfl, rfl, rfl, hbs⟩
      · exact ⟨rfl, rfl, rfl, hbs⟩

/-- A whole sequence of write calls preserves the writer scalars and steps
the batch. -/
theorem applyOps_facts : ∀ (ops : List WriteOp) (w : Writer),
    (applyOps w ops).initial_rows = w.initial_rows ∧
    (applyOps w ops).to_insert = w.to_insert ∧
    (applyOps w ops).success = w.success ∧
    BatchStep w.initial_rows w.batch (applyOps w ops).batch := by
  intro ops
  induction ops with
  | nil => intro w; exact ⟨rfl, rfl, rfl, batchStep_refl _ _⟩
  | cons op ops ih =>
    intro w
    obtain ⟨h1, h2, h3, h4⟩ := applyOp_step w op
    obtain ⟨g1, g2, g3, g4⟩ := ih (applyOp w op).1
    refine ⟨g1.trans h1, g2.trans h2, g3.trans h3, ?_⟩
    rw [h1] at g4
    exact batchStep_trans _ _ _ _ h4 g4

/-- Rollback recomputes exactly the original dictionary from the original
codes: the retained maximum code pins the original dictionary length. -/
theorem rollbackDict_restore (d0 : List Int) (dict0 dict : List String)
    (hdtake : dict.take dict0.length = dict0)
    (hbound : ∀ x ∈ d0, x < (dict0.length : Int))
    (hroll : rollbackDict d0 dict0 = dict0) :
    rollbackDict d0 dict = dict0 := by
  unfold rollbackDict at hroll ⊢
  cases hm : d0.max? with
  | none =>
    rw [hm] at hroll
    dsimp only at hroll ⊢
    exact hroll
  | some m =>
    rw [hm] at hroll
    dsimp only at hroll ⊢
    have hmem : m ∈ d0 := List.max?_mem (fun a b => max_choice a b) hm
    have hlt := hbound m hmem
    have h1 : (m + 1).toNat ≤ dict0.length := by
      rw [Int.toNat_le]
      omega
    have h2 : dict0.length ≤ (m + 1).toNat := by
      unfold dictTruncate at hroll
      exact (List.take_eq_self_iff dict0).mp hroll
    unfold dictTruncate
    rw [le_antisymm h1 h2]
    exact hdtake

/-- Rollback of a column standing in the transaction invariant restores the
original column, up to empty-string padding of the string store. -/
theorem ColInv_rollback (ir : Nat) (c0 c : Column) (h : ColInv ir c0 c) :
    RestoredCol c0 (rollbackCol ir c) := by
  obtain ⟨t0, v0, cd0⟩ := c0
  obtain ⟨t, v, cd⟩ := c
  obtain ⟨ht, hvl, hvt, hd⟩ := h
  refine ⟨ht, hvt, ?_⟩
  cases cd0 <;> cases cd <;> (try exact hd.elim)
  case f64 =>
    obtain ⟨hs, hlen, htake⟩ := hd
    exact ⟨hs, htake⟩
  case i64 =>
    obtain ⟨hs, hlen, htake⟩ := hd
    exact ⟨hs, htake⟩
  case u64 =>
    obtain ⟨hs, hlen, htake⟩ := hd
    exact ⟨hs, htake⟩
  case bool =>
    obtain ⟨hs, hlen, htake⟩ := hd
    exact ⟨hs, htake⟩
  case string =>
    obtain ⟨hs, hlen, k, htake⟩ := hd
    exact ⟨hs, k, htake⟩
  case tag =>
    obtain ⟨hs, hdl0, htake, hdlen, hdtake, hbound, hroll⟩ := hd
    refine ⟨hs, htake, ?_⟩
    rw [htake]
    exact rollbackDict_restore _ _ _ hdtake hbound hroll

/-- Mapping rollback over the columns, observed at one index. -/
theorem getD_map_rollback (ir : Nat) (l : List Column) (i : Nat) (hi : i < l.length) :
    (l.map (rollbackCol ir)).getD i default = rollbackCol ir (l.getD i default) := by
  rw [List.getD_eq_getElem?_getD, List.getElem?_map, List.getD_eq_getElem?_getD,
    List.getElem?_eq_getElem hi]
  simp

/-- C1 amended: dropping a writer without commit after any sequence of typed
write calls (whatever each outcome) restores, for every column of a
well-formed batch, the row count, the validity bitmap, the cumulative
statistics, every non-string value store and every tag dictionary exactly;
a string value store is restored up to trailing empty-string entries
materialised in place of slots that were implicit nulls before the
transaction. -/
theorem c1_amended :
    ∀ (b0 : MutableBatch) (n : Nat) (ops : List WriteOp),
      batchWFb b0 = true →
      (rollback (applyOps (Writer.new b0 n) ops)).row_count = b0.row_count ∧
      ∀ i, i < b0.columns.length →
        RestoredCol (b0.columns.getD i default)
          ((rollback (applyOps (Writer.new b0 n) ops)).columns.getD i default) := by
  intro b0 n ops hwf
  obtain ⟨hir, hti, hsucc, hbs⟩ := applyOps_facts ops (Writer.new b0 n)
  have hsf : (applyOps (Writer.new b0 n) ops).success = false := hsucc.trans rfl
  have hroll : rollback (applyOps (Writer.new b0 n) ops) =
      { (applyOps (Writer.new b0 n) ops).batch with
        columns := (applyOps (Writer.new b0 n) ops).batch.columns.map
          (rollbackCol (applyOps (Writer.new b0 n) ops).initial_rows) } := by
    unfold rollback
    rw [if_neg (by rw [hsf]; simp)]
  constructor
  · rw [hroll]
    exact hbs.1
  · intro i hi
    have hlen : i < (applyOps (Writer.new b0 n) ops).batch.columns.length :=
      lt_of_lt_of_le hi hbs.2.1
    have hinv0 := batchWF_colInv b0 hwf i hi
    have hcs := hbs.2.2 i hi
    have hinv := colInv_step b0.row_count _ _ _ hinv0 hcs
    have hres := ColInv_rollback b0.row_count _ _ hinv
    rw [hroll]
    show RestoredCol _ (((applyOps (Writer.new b0 n) ops).batch.columns.map
      (rollbackCol (applyOps (Writer.new b0 n) ops).initial_rows)).getD i default)
    rw [getD_map_rollback _ _ i hlen, hir]
    exact hres

/-- First transaction of the C1 counterexample: a masked two-row string
write on a fresh batch (row 0 gets `a`, row 1 is null). -/
def c1_w1 : Writer × Outcome := (Writer.new {} 2).write_string "s" (some [1]) ["a"]

/-- The committed batch of the first transaction: string store `[a]` but
row count 2 (the trailing null slot stays implicit). -/
def c1_b1 : MutableBatch := (c1_w1.1.commit).getD {}

/-- Second transaction of the C1 counterexample: a dense one-row string
write, then dropped without commit. -/
def c1_w2 : Writer × Outcome := (Writer.new c1_b1 1).write_string "s" none ["b"]

/-- The string value store of the first column of a batch. -/
def stringStore (b : MutableBatch) : List String :=
  match (b.columns.getD 0 default).data with
  | .string d _ => d
  | _ => []

/-- C1 counterexample: both writes succeed, the second writer is dropped
uncommitted, yet the rolled-back string store is `[a, EMPTY]`, not the `[a]`
it held when the writer was constructed: the gap-filling write materialised
the implicit null of row 1 as an empty string, and rollback truncates by
length only. The batch `c1_b1` is itself produced by the program (committed
first transaction), so the claimed byte-for-byte restoration fails. -/
theorem c1_counterexample :
    c1_w1.2 = Outcome.ok ∧
    c1_w1.1.commit = some c1_b1 ∧
    c1_b1.row_count = 2 ∧
    stringStore c1_b1 = ["a"] ∧
    c1_w2.2 = Outcome.ok ∧
    c1_w2.1.success = false ∧
    stringStore (rollback c1_w2.1) = ["a", ""] ∧
    stringStore (rollback c1_w2.1) ≠ stringStore c1_b1 := by
  refine ⟨by decide, rfl, by decide, by decide, by decide, by decide, by decide, by decide⟩

/-- One-column int64 batch used to witness the amended C1. -/
def c1_wit_batch : MutableBatch :=
  { column_names := [("c", 0)]
    columns := [⟨.field .integer, [true], .i64 [7] {}⟩]
    row_count := 1 }

/-- C1 witness: a well-formed one-column batch, one int64 write, drop:
row count and column fully restored. -/
theorem c1_witness :
    batchWFb c1_wit_batch = true ∧
    ((rollback (applyOps (Writer.new c1_wit_batch 1) [WriteOp.wI64 "c" none [9]])).row_count =
        c1_wit_batch.row_count ∧
      ∀ i, i < c1_wit_batch.columns.length →
        RestoredCol (c1_wit_batch.columns.getD i default)
          ((rollback (applyOps (Writer.new c1_wit_batch 1)
            [WriteOp.wI64 "c" none [9]])).columns.getD i default)) :=
  ⟨by decide, c1_amended c1_wit_batch 1 [.wI64 "c" none [9]] (by decide)⟩

end MB
